import Mathlib

/-!
A verification development for the geospatial query cache of this
repository (`redis_cache.py` and the caching skeleton of
`backend/app.py`).

The Python code is shallowly embedded:

* Python/JSON values are modelled by the inductive types `PyVal`
  (arbitrary Python objects, including tuples, non-string dictionary
  keys and an opaque constructor for objects `json.dumps` cannot
  serialize) and `JVal` (parsed JSON values, i.e. what `json.loads`
  can produce).
* `json.dumps(params, sort_keys=True)` is modelled by `dumpsCanon`
  (canonical textual form with the keys of every mapping sorted
  recursively, failing exactly where the Python serializer raises),
  and plain `json.dumps` composed with `json.loads` by `toJson` and
  `dedupLast`.
* The Redis backend is modelled by an explicit state `RState`
  (key/value entries with absolute expiration, the `geo:points`
  geo set, a reachability flag for backend outages, and a clock).
  Redis commands become functions on this state returning
  `Except PyErr`; each `GeoCache` method wraps them with the same
  `try/except` structure as the source.
* Numbers that the source manipulates as machine floats (timestamps,
  TTLs, coordinates, distances) are modelled as rationals; the
  great-circle distance computed inside Redis' GEORADIUS is taken as
  an explicit function parameter, since no claim depends on its
  analytic form.
-/

/-- Python exception kinds relevant to the embedded code.  `typeError`
and `valueError` are the serialization/parsing failures raised by
`json.dumps` / `float()` / tuple unpacking; `connError` models the
transport failure raised by every redis-py command when the backend is
unreachable; `respError` models `redis.exceptions.ResponseError`
(the server rejecting a command, e.g. `SETEX` with an invalid TTL). -/
inductive PyErr where
  | typeError
  | valueError
  | connError
  | respError
deriving DecidableEq, Repr

/-- Parsed JSON values: everything `json.loads` can return.  Object
fields are an association list in textual order; JSON numbers are
restricted to integers here (no claim depends on float formatting). -/
inductive JVal where
  | jnull
  | jbool (b : Bool)
  | jint (n : Int)
  | jstr (s : String)
  | jarr (xs : List JVal)
  | jobj (kvs : List (String × JVal))

/-- Keys of a Python dictionary as far as `json.dumps` accepts them:
strings, ints, bools and `None` (all stringified in the output). -/
inductive PyKey where
  | kstr (s : String)
  | kint (n : Int)
  | kbool (b : Bool)
  | knone
deriving DecidableEq, Repr

/-- Python values, as passed to the cache layer: JSON-faithful data,
plus tuples, dictionaries with arbitrary (`PyKey`) keys, and `pyobj`,
an opaque stand-in for any object `json.dumps` cannot serialize. -/
inductive PyVal where
  | pynone
  | pybool (b : Bool)
  | pyint (n : Int)
  | pystr (s : String)
  | pylist (xs : List PyVal)
  | pytuple (xs : List PyVal)
  | pydict (kvs : List (PyKey × PyVal))
  | pyobj (tag : String)

/-- Python truthiness of a parsed JSON value (`if cached_result:` in
app.py): `None`, `False`, `0`, `""`, `[]` and `{}` are falsy. -/
def jtruthy : JVal → Bool
  | .jnull => false
  | .jbool b => b
  | .jint n => n != 0
  | .jstr s => s != ""
  | .jarr xs => !xs.isEmpty
  | .jobj kvs => !kvs.isEmpty

/-- Insert into a `le`-sorted list (used to model Python's stable
`sorted`, which `json.dumps(..., sort_keys=True)` applies to the keys
of every mapping). -/
def insertS (le : α → α → Bool) (a : α) : List α → List α
  | [] => [a]
  | b :: t => if le a b then a :: b :: t else b :: insertS le a t

/-- Stable insertion sort, modelling Python's `sorted`. -/
def insSort (le : α → α → Bool) : List α → List α
  | [] => []
  | a :: t => insertS le a (insSort le t)

theorem insertS_perm (le : α → α → Bool) (a : α) (l : List α) :
    List.Perm (insertS le a l) (a :: l) := by
  induction l with
  | nil => simp [insertS]
  | cons b t ih =>
    by_cases h : le a b
    · simp [insertS, h]
    · simp only [insertS, h, if_false, Bool.false_eq_true]
      exact (ih.cons b).trans (List.Perm.swap a b t)

theorem insSort_perm (le : α → α → Bool) (l : List α) :
    List.Perm (insSort le l) l := by
  induction l with
  | nil => simp [insSort]
  | cons a t ih =>
    exact (insertS_perm le a (insSort le t)).trans (ih.cons a)

theorem mem_insSort (le : α → α → Bool) {a : α} {l : List α} :
    a ∈ insSort le l ↔ a ∈ l :=
  (insSort_perm le l).mem_iff

/-- Is this key a string?  (`json.dumps(..., sort_keys=True)` can sort
the keys of a dict only when they are mutually comparable.) -/
def PyKey.isStr : PyKey → Bool
  | .kstr _ => true
  | _ => false

/-- Is this key numeric?  Python compares `bool` with `int`. -/
def PyKey.isNum : PyKey → Bool
  | .kint _ => true
  | .kbool _ => true
  | _ => false

/-- Numeric value used when Python compares numeric keys. -/
def PyKey.numVal : PyKey → Int
  | .kint n => n
  | .kbool b => cond b 1 0
  | _ => 0

/-- String carried by a string key. -/
def PyKey.strVal : PyKey → String
  | .kstr s => s
  | _ => ""

/-- The string `json.dumps` prints for a mapping key (non-string keys
are stringified: `1` → `"1"`, `True` → `"true"`, `None` → `"null"`). -/
def PyKey.render : PyKey → String
  | .kstr s => s
  | .kint n => toString n
  | .kbool b => cond b "true" "false"
  | .knone => "null"

/-- Total boolean comparison on keys: lexicographic on two strings,
numeric on everything else.  `sortableKeys` guards every use, so the
cross-type branch mirrors no Python behaviour and is never reached
with mixed key types. -/
def keyLeB (a b : PyKey) : Bool :=
  if a.isStr && b.isStr then decide (a.strVal.toList ≤ b.strVal.toList)
  else decide (a.numVal ≤ b.numVal)

/-- Comparison of rendered dict fields by their key, as Python's
`sorted(d.items())` does under `sort_keys=True`. -/
def fieldLe (a b : PyKey × String) : Bool := keyLeB a.1 b.1

/-- Python's `sorted` succeeds on a key list exactly when all keys are
mutually comparable: all numeric, or all strings, or fewer than two
keys (a cross-type comparison raises `TypeError`). -/
def sortableKeys (ks : List PyKey) : Bool :=
  ks.length ≤ 1 || ks.all PyKey.isNum || ks.all PyKey.isStr

/-- JSON string escaping for the characters the claims can exercise
(quote and backslash); other characters print verbatim.  The exact
escape table does not matter for any claim: only determinism does. -/
def escChar (c : Char) : String :=
  if c = '"' then "\\\"" else if c = '\\' then "\\\\" else String.singleton c

/-- A JSON string literal. -/
def jstring (s : String) : String :=
  "\"" ++ String.join (s.toList.map escChar) ++ "\""

mutual
/-- Model of `json.dumps(v, sort_keys=True)` as used by
`GeoCache.generate_key` (redis_cache.py line 43): canonical textual
form with the keys of every mapping sorted recursively, list order
preserved, default separators.  Returns `.error` exactly where the
Python call raises: on a non-serializable object (`TypeError`) and on
a mapping whose keys cannot be sorted (`TypeError` from `sorted`).
Mapping fields are rendered in stored order and the rendered
`(key, field)` pairs are then stably sorted by key — elementwise
rendering commutes with the stable sort, so this equals Python's
render-after-sort. -/
def dumpsCanon : PyVal → Except PyErr String
  | .pynone => .ok "null"
  | .pybool b => .ok (cond b "true" "false")
  | .pyint n => .ok (toString n)
  | .pystr s => .ok (jstring s)
  | .pylist xs => do
      let es ← dumpsList xs
      .ok ("[" ++ String.intercalate ", " es ++ "]")
  | .pytuple xs => do
      let es ← dumpsList xs
      .ok ("[" ++ String.intercalate ", " es ++ "]")
  | .pydict kvs =>
      if sortableKeys (kvs.map Prod.fst) then do
        let fields ← dumpsFields kvs
        .ok ("\x7b" ++
          String.intercalate ", " ((insSort fieldLe fields).map Prod.snd) ++
          "\x7d")
      else .error .typeError
  | .pyobj _ => .error .typeError
termination_by structural v => v

/-- Serialize list elements in order. -/
def dumpsList : List PyVal → Except PyErr (List String)
  | [] => .ok []
  | x :: t => do
      let s ← dumpsCanon x
      let ts ← dumpsList t
      .ok (s :: ts)
termination_by structural l => l

/-- Render dict items as `(key, "key": value)` pairs in stored order. -/
def dumpsFields : List (PyKey × PyVal) → Except PyErr (List (PyKey × String))
  | [] => .ok []
  | (k, v) :: t => do
      let s ← dumpsCanon v
      let ts ← dumpsFields t
      .ok ((k, jstring k.render ++ ": " ++ s) :: ts)
termination_by structural l => l
end

/-- First-match lookup in a Python dict modelled as an association
list (syntactic key equality). -/
def lookupKey {β : Type} (k : PyKey) : List (PyKey × β) → Option β
  | [] => none
  | (k', v) :: t => if k' = k then some v else lookupKey k t

mutual
/-- Model of plain `json.dumps(data)` (redis_cache.py line 63) composed
with the `json.loads` a later `get` performs, minus duplicate-key
resolution (applied separately by `dedupLast`): mapping keys are
stringified in insertion order, tuples become arrays, and a
non-serializable object raises `TypeError`. -/
def toJson : PyVal → Except PyErr JVal
  | .pynone => .ok .jnull
  | .pybool b => .ok (.jbool b)
  | .pyint n => .ok (.jint n)
  | .pystr s => .ok (.jstr s)
  | .pylist xs => do .ok (.jarr (← toJsonList xs))
  | .pytuple xs => do .ok (.jarr (← toJsonList xs))
  | .pydict kvs => do .ok (.jobj (← toJsonPairs kvs))
  | .pyobj _ => .error .typeError
termination_by structural v => v

/-- Serialize list elements in order. -/
def toJsonList : List PyVal → Except PyErr (List JVal)
  | [] => .ok []
  | x :: t => do
      let j ← toJson x
      let ts ← toJsonList t
      .ok (j :: ts)
termination_by structural l => l

/-- Serialize dict items in insertion order, stringifying keys. -/
def toJsonPairs : List (PyKey × PyVal) → Except PyErr (List (String × JVal))
  | [] => .ok []
  | (k, v) :: t => do
      let j ← toJson v
      let ts ← toJsonPairs t
      .ok ((k.render, j) :: ts)
termination_by structural l => l
end

/-- Insert-or-update into an association list the way a Python dict
does while `json.loads` parses an object: an existing key keeps its
position but takes the new value; a new key is appended. -/
def upsertPair (k : String) (v : JVal) : List (String × JVal) → List (String × JVal)
  | [] => [(k, v)]
  | (k', v') :: t => if k' = k then (k', v) :: t else (k', v') :: upsertPair k v t

/-- Resolve duplicate object keys the way `json.loads` does
(last value wins, first position kept). -/
def dedupPairs (l : List (String × JVal)) : List (String × JVal) :=
  l.foldl (fun acc kv => upsertPair kv.1 kv.2 acc) []

mutual
/-- The normalization `json.loads` applies to the parse of a dumped
`JVal`: duplicate object keys (which `json.dumps` can emit when
distinct Python keys stringify alike) are resolved last-wins at every
level.  On objects with unique keys this is the identity. -/
def dedupLast : JVal → JVal
  | .jnull => .jnull
  | .jbool b => .jbool b
  | .jint n => .jint n
  | .jstr s => .jstr s
  | .jarr xs => .jarr (dedupList xs)
  | .jobj kvs => .jobj (dedupPairs (dedupKvs kvs))
termination_by structural v => v

/-- Normalize list elements. -/
def dedupList : List JVal → List JVal
  | [] => []
  | x :: t => dedupLast x :: dedupList t
termination_by structural l => l

/-- Normalize object values (key resolution happens afterwards). -/
def dedupKvs : List (String × JVal) → List (String × JVal)
  | [] => []
  | (k, v) :: t => (k, dedupLast v) :: dedupKvs t
termination_by structural l => l
end

mutual
/-- The Python object `json.loads` builds for a parsed JSON value:
objects become string-keyed dicts, arrays become lists. -/
def ofJson : JVal → PyVal
  | .jnull => .pynone
  | .jbool b => .pybool b
  | .jint n => .pyint n
  | .jstr s => .pystr s
  | .jarr xs => .pylist (ofJsonList xs)
  | .jobj kvs => .pydict (ofJsonKvs kvs)
termination_by structural v => v

/-- Convert array elements. -/
def ofJsonList : List JVal → List PyVal
  | [] => []
  | x :: t => ofJson x :: ofJsonList t
termination_by structural l => l

/-- Convert object fields. -/
def ofJsonKvs : List (String × JVal) → List (PyKey × PyVal)
  | [] => []
  | (k, v) :: t => (.kstr k, ofJson v) :: ofJsonKvs t
termination_by structural l => l
end

/-- No duplicates in a list of strings. -/
def nodupB : List String → Bool
  | [] => true
  | x :: t => !t.contains x && nodupB t

mutual
/-- Well-formed parsed JSON: object keys are duplicate-free at every
level.  Every value a real Python dict serializes to satisfies this. -/
def WFj : JVal → Bool
  | .jnull => true
  | .jbool _ => true
  | .jint _ => true
  | .jstr _ => true
  | .jarr xs => WFjList xs
  | .jobj kvs => nodupB (kvs.map Prod.fst) && WFjKvs kvs
termination_by structural v => v

/-- Well-formedness of array elements. -/
def WFjList : List JVal → Bool
  | [] => true
  | x :: t => WFj x && WFjList t
termination_by structural l => l

/-- Well-formedness of object values. -/
def WFjKvs : List (String × JVal) → Bool
  | [] => true
  | (_, v) :: t => WFj v && WFjKvs t
termination_by structural l => l
end

mutual
/-- A well-formed `ParameterSet` value in the sense of the spec: every
mapping in it has string keys (parameter names) without duplicates, as
any real Python dict has. -/
def ParamWF : PyVal → Bool
  | .pynone => true
  | .pybool _ => true
  | .pyint _ => true
  | .pystr _ => true
  | .pyobj _ => true
  | .pylist xs => ParamWFList xs
  | .pytuple xs => ParamWFList xs
  | .pydict kvs =>
      (kvs.map Prod.fst).all PyKey.isStr &&
      nodupB ((kvs.map Prod.fst).map PyKey.strVal) &&
      ParamWFKvs kvs
termination_by structural v => v

/-- Well-formedness of list elements. -/
def ParamWFList : List PyVal → Bool
  | [] => true
  | x :: t => ParamWF x && ParamWFList t
termination_by structural l => l

/-- Well-formedness of dict values. -/
def ParamWFKvs : List (PyKey × PyVal) → Bool
  | [] => true
  | (_, v) :: t => ParamWF v && ParamWFKvs t
termination_by structural l => l
end

mutual
/-- Structural equality of two Python values: scalars by value, lists
and tuples pointwise in order, dicts by key set and pointwise equal
values under each key, regardless of insertion order.  This is the
spec's notion of two ParameterSets being structurally equal. -/
def structEq : PyVal → PyVal → Bool
  | .pynone, .pynone => true
  | .pybool a, .pybool b => a == b
  | .pyint a, .pyint b => a == b
  | .pystr a, .pystr b => a == b
  | .pylist xs, .pylist ys => structEqList xs ys
  | .pytuple xs, .pytuple ys => structEqList xs ys
  | .pydict l₁, .pydict l₂ =>
      structEqDict l₁ l₂ && l₂.all (fun kv => (lookupKey kv.1 l₁).isSome)
  | .pyobj a, .pyobj b => a == b
  | _, _ => false
termination_by structural v _ => v

/-- Pointwise structural equality of two lists. -/
def structEqList : List PyVal → List PyVal → Bool
  | [], [] => true
  | x :: xs, y :: ys => structEq x y && structEqList xs ys
  | _, _ => false
termination_by structural l _ => l

/-- Every item of the first dict is matched by the second. -/
def structEqDict : List (PyKey × PyVal) → List (PyKey × PyVal) → Bool
  | [], _ => true
  | (k, v) :: t, l₂ =>
      (match lookupKey k l₂ with
       | some w => structEq v w
       | none => false) &&
      structEqDict t l₂
termination_by structural l _ => l
end

mutual
/-- Whether `json.dumps(v, sort_keys=True)` succeeds on `v`: no
non-serializable object anywhere, and every mapping's keys mutually
comparable.  This is the complement of the claim's class of
non-serializable parameter sets. -/
def canonOK : PyVal → Bool
  | .pynone => true
  | .pybool _ => true
  | .pyint _ => true
  | .pystr _ => true
  | .pylist xs => canonOKList xs
  | .pytuple xs => canonOKList xs
  | .pydict kvs => sortableKeys (kvs.map Prod.fst) && canonOKKvs kvs
  | .pyobj _ => false
termination_by structural v => v

/-- Serializability of list elements. -/
def canonOKList : List PyVal → Bool
  | [] => true
  | x :: t => canonOK x && canonOKList t
termination_by structural l => l

/-- Serializability of dict values. -/
def canonOKKvs : List (PyKey × PyVal) → Bool
  | [] => true
  | (_, v) :: t => canonOK v && canonOKKvs t
termination_by structural l => l
end

/-- One stored key/value entry.  `val` is the `json.loads`-parse of the
serialized blob `SETEX` stored (storing the parse is faithful because
`get` immediately parses what it reads, and `json.dumps` never emits
the empty string, so the `if data:` guard in `get` always passes on a
stored blob).  `expiresAt` is the absolute expiration instant. -/
structure CacheEntry where
  key : String
  val : JVal
  expiresAt : ℚ

/-- One member of the `geo:points` geo set. -/
structure GeoPoint where
  pname : String
  lon : ℚ
  lat : ℚ

/-- The Redis backend together with the `GeoCache` configuration:
stored entries, the geo set, whether the backend is reachable (every
redis-py command raises a connection error when it is not), the
current time, and the configured default TTL (`ttl_seconds`,
3600 by default). -/
structure RState where
  kv : List CacheEntry
  points : List GeoPoint
  reachable : Bool
  now : ℚ
  ttl : ℚ

/-- An entry is live when its expiration has not yet been reached
(Redis removes a key once the clock reaches `expiresAt`). -/
def live (st : RState) (e : CacheEntry) : Bool :=
  decide (st.now < e.expiresAt)

/-- Model of redis-py `GET`: connection error when unreachable,
otherwise the value of the live entry under the key, if any. -/
def redisGet (st : RState) (k : String) : Except PyErr (Option JVal) :=
  if st.reachable then
    .ok ((st.kv.find? (fun e => e.key == k && live st e)).map CacheEntry.val)
  else .error .connError

/-- Model of redis-py `SETEX key seconds value`: connection error when
unreachable; the server rejects a non-positive or non-integer
expiration with a `ResponseError`; otherwise the entry is replaced and
the reply is `True`. -/
def redisSetex (st : RState) (k : String) (exp : ℚ) (v : JVal) :
    Except PyErr (Bool × RState) :=
  if !st.reachable then .error .connError
  else if exp.den ≠ 1 ∨ exp ≤ 0 then .error .respError
  else
    .ok (true,
      { st with kv := ⟨k, v, st.now + exp⟩ :: st.kv.filter (fun e => e.key ≠ k) })

/-- Does this key currently exist in the keyspace?  (The geo set lives
under the key `"geo:points"` once it has members.) -/
def keyExists (st : RState) (k : String) : Bool :=
  (k == "geo:points" && !st.points.isEmpty) ||
  st.kv.any (fun e => e.key == k && live st e)

/-- Model of redis-py `DEL k₁ … kₙ`: removes the named keys, replying
with how many distinct named keys existed. -/
def redisDel (st : RState) (ks : List String) : Except PyErr (Nat × RState) :=
  if st.reachable then
    .ok ((ks.dedup.filter (keyExists st)).length,
      { st with
        kv := st.kv.filter (fun e => !ks.contains e.key)
        points := if ks.contains "geo:points" then [] else st.points })
  else .error .connError

/-- Redis glob matching, for the metacharacters the code can produce:
`*` matches any run (formulated as: some tail of the string matches
the rest of the pattern), `?` any one character, anything else itself
(character classes and escapes never occur in the patterns
`invalidate_by_prefix` builds). -/
def globMatch : List Char → List Char → Bool
  | [], s => s.isEmpty
  | p :: ps, s =>
      if p = '*' then s.tails.any (fun t => globMatch ps t)
      else
        match s with
        | [] => false
        | c :: cs => (if p = '?' then true else p == c) && globMatch ps cs

/-- Glob matching on strings. -/
def globMatchS (pat s : String) : Bool := globMatch pat.toList s.toList

/-- Model of redis-py `KEYS pattern`: every key of the keyspace whose
name matches the glob — the live entry keys plus `"geo:points"` when
the geo set is non-empty. -/
def redisKeys (st : RState) (pat : String) : Except PyErr (List String) :=
  if st.reachable then
    .ok (((st.kv.filter (live st)).map CacheEntry.key).filter (globMatchS pat) ++
      (if !st.points.isEmpty && globMatchS pat "geo:points" then ["geo:points"] else []))
  else .error .connError

/-- Model of redis-py `GEOADD`: adds the member or updates its
coordinates, replying with the number of members newly added. -/
def redisGeoadd (st : RState) (lon lat : ℚ) (nm : String) :
    Except PyErr (Nat × RState) :=
  if st.reachable then
    if st.points.any (fun p => p.pname == nm) then
      .ok (0,
        { st with points :=
            st.points.map (fun p => if p.pname == nm then ⟨nm, lon, lat⟩ else p) })
    else .ok (1, { st with points := st.points ++ [⟨nm, lon, lat⟩] })
  else .error .connError

/-- Model of redis-py `PING`. -/
def redisPing (st : RState) : Except PyErr Bool :=
  if st.reachable then .ok true else .error .connError

/-- One field of a record in redis-py's parsed `GEORADIUS` reply:
the member name, a distance parsed by `float()`, a geohash integer,
or a coordinate pair (a Python tuple of floats).  The geohash value
itself is irrelevant to every claim and is modelled as `0`. -/
inductive GeoField where
  | fname (s : String)
  | fdist (q : ℚ)
  | fhash (n : Int)
  | fcoord (lon lat : ℚ)

/-- Model of redis-py
`georadius(name, longitude, latitude, radius, unit, withcoord,
withdist, withhash, count=None, sort=None)` followed by redis-py's
reply parsing: the members within `radius` of the center (under the
given great-circle distance function `d`), each as a record holding
the name followed by one field per requested `WITH…` flag, in the
reply order dist, hash, coord.  With neither `COUNT` nor a sort
option — and the embedded calls supply neither — Redis documents the
record order as unspecified; the model uses the stored order. -/
def georadiusPy (st : RState) (lon lat radius : ℚ)
    (withcoord withdist withhash : Bool)
    (d : ℚ → ℚ → ℚ → ℚ → ℚ) : Except PyErr (List (List GeoField)) :=
  if st.reachable then
    .ok ((st.points.filter (fun p => decide (d lon lat p.lon p.lat ≤ radius))).map
      (fun p =>
        .fname p.pname ::
        ((if withdist then [GeoField.fdist (d lon lat p.lon p.lat)] else []) ++
         (if withhash then [GeoField.fhash 0] else []) ++
         (if withcoord then [GeoField.fcoord p.lon p.lat] else []))))
  else .error .connError

/-- Python `float(x)` applied to one reply field: distances (already
floats) and geohash ints convert; a member-name string or a coordinate
tuple raises. -/
def pyFloat : GeoField → Except PyErr ℚ
  | .fdist q => .ok q
  | .fhash n => .ok (n : ℚ)
  | .fname _ => .error .valueError
  | .fcoord _ _ => .error .typeError

/-- The name a reply field would print as (only ever reached for
`fname` fields in the embedded code). -/
def fieldName : GeoField → String
  | .fname s => s
  | _ => ""

/-- The result-formatting loop of `find_nearby_points`
(redis_cache.py lines 182-188): `name, distance = result` raises
`ValueError` unless the record has exactly two fields, and
`float(distance)` must then succeed. -/
def formatLoop : List (List GeoField) → Except PyErr (List (String × ℚ))
  | [] => .ok []
  | [a, b] :: rest => do
      let q ← pyFloat b
      let tl ← formatLoop rest
      .ok ((fieldName a, q) :: tl)
  | _ => .error .valueError

namespace GeoCache

/-- `GeoCache.generate_key` (redis_cache.py lines 32-49):
`json.dumps(params, sort_keys=True)`, then an md5 hex digest of the
canonical form, then `"geo:{prefix}:{hash}"`.  The digest `h` is a
parameter of the model: every claim about key derivation depends only
on `h` being a deterministic function of the canonical serialization.
The method has no `try/except`, so a serialization error propagates
to the caller. -/
def generate_key (h : String → String) (pref : String) (params : PyVal) :
    Except PyErr String := do
  let param_str ← dumpsCanon params
  .ok ("geo:" ++ pref ++ ":" ++ h param_str)

/-- The body of the `try:` block of `GeoCache.set` (redis_cache.py
lines 62-72): serialize, pick the explicit TTL or the configured
default, and `SETEX`. -/
def set_body (st : RState) (k : String) (data : PyVal) (ttl : Option ℚ) :
    Except PyErr (Bool × RState) := do
  let j ← toJson data
  let expiration := match ttl with | some t => t | none => st.ttl
  redisSetex st k expiration (dedupLast j)

/-- `GeoCache.set` (redis_cache.py lines 51-75): the `try` body with
`except Exception: return False` — every failure, including an invalid
TTL rejected by the server, is caught, logged and reported as `False`. -/
def set (st : RState) (k : String) (data : PyVal) (ttl : Option ℚ) :
    Bool × RState :=
  match set_body st k data ttl with
  | .ok r => r
  | .error _ => (false, st)

/-- `GeoCache.get` (redis_cache.py lines 77-96): `GET` then
`json.loads` on hit; `None` on miss and on any error.  Python's `None`
and JSON `null` share one representation (`jnull`), exactly as in the
source, where a cached `null` is indistinguishable from a miss. -/
def get (st : RState) (k : String) : JVal :=
  match redisGet st k with
  | .ok (some v) => v
  | .ok none => .jnull
  | .error _ => .jnull

/-- `GeoCache.delete` (redis_cache.py lines 98-114): `DEL key`, then
`bool(result)`; `False` on any error. -/
def delete (st : RState) (k : String) : Bool × RState :=
  match redisDel st [k] with
  | .ok (n, st') => (n != 0, st')
  | .error _ => (false, st)

/-- The body of the `try:` block of `GeoCache.invalidate_by_prefix`
(redis_cache.py lines 125-134): `KEYS "geo:{prefix}:*"`, return 0 when
nothing matches, otherwise `DEL` them all and return the count. -/
def inv_body (st : RState) (pref : String) : Except PyErr (Nat × RState) := do
  let keys ← redisKeys st ("geo:" ++ pref ++ ":*")
  if keys.isEmpty then .ok (0, st)
  else redisDel st keys

/-- `GeoCache.invalidate_by_prefix` (redis_cache.py lines 116-137),
with `except Exception: return 0`.  Note the argument is wrapped into
the pattern `geo:{prefix}:*`: it is the middle namespace component,
not a raw key prefix. -/
def invalidate_by_pref (st : RState) (pref : String) : Nat × RState :=
  match inv_body st pref with
  | .ok r => r
  | .error _ => (0, st)

/-- `GeoCache.store_geospatial_point` (redis_cache.py lines 139-156):
`GEOADD geo:points lon lat name`, then `bool(result)`; `False` on
error. -/
def store_geospatial_point (st : RState) (nm : String) (lon lat : ℚ) :
    Bool × RState :=
  match redisGeoadd st lon lat nm with
  | .ok (n, st') => (n != 0, st')
  | .error _ => (false, st)

/-- The body of the `try:` block of `GeoCache.find_nearby_points`
(redis_cache.py lines 171-190).  The source builds
`args = ["geo:points", lon, lat, radius_km, "km"]`, appends
`["COUNT", count]` when `count` is truthy, appends `"WITHDIST"`, and
calls `self.redis.georadius(*args)`.  redis-py's signature is
`georadius(name, longitude, latitude, radius, unit, withcoord,
withdist, withhash, count=None, sort=None, …)`, so the extra
positional strings land in the flag slots: without a count,
`withcoord="WITHDIST"` (truthy); with one, `withcoord="COUNT"`,
`withdist=count`, `withhash="WITHDIST"` (all truthy) — and redis-py's
`count` keyword stays `None`, so no `COUNT` is ever sent.  The
formatting loop then unpacks each record as `name, distance`. -/
def fnp_body (st : RState) (lon lat radius_km : ℚ) (count : Option Nat)
    (d : ℚ → ℚ → ℚ → ℚ → ℚ) : Except PyErr (List (String × ℚ)) := do
  let flags := match count with
    | some n => if n ≠ 0 then (true, true, true) else (true, false, false)
    | none => (true, false, false)
  let results ← georadiusPy st lon lat radius_km flags.1 flags.2.1 flags.2.2 d
  formatLoop results

/-- `GeoCache.find_nearby_points` (redis_cache.py lines 158-193), with
`except Exception: return []`. -/
def find_nearby_points (st : RState) (lon lat radius_km : ℚ)
    (count : Option Nat) (d : ℚ → ℚ → ℚ → ℚ → ℚ) : List (String × ℚ) :=
  match fnp_body st lon lat radius_km count d with
  | .ok l => l
  | .error _ => []

/-- `GeoCache.cache_query_result` (redis_cache.py lines 255-268):
derive the key (errors propagate — there is no `try` here) and `set`. -/
def cache_query_result (h : String → String) (st : RState)
    (query_type : String) (params : PyVal) (result : PyVal) (ttl : Option ℚ) :
    Except PyErr (Bool × RState) := do
  let key ← generate_key h query_type params
  .ok (set st key result ttl)

/-- `GeoCache.get_cached_query_result` (redis_cache.py lines 270-281):
derive the key (errors propagate) and `get`. -/
def get_cached_query_result (h : String → String) (st : RState)
    (query_type : String) (params : PyVal) : Except PyErr JVal := do
  let key ← generate_key h query_type params
  .ok (get st key)

/-- `GeoCache.health_check` (redis_cache.py lines 283-293): `PING`,
`False` on any error. -/
def health_check (st : RState) : Bool :=
  match redisPing st with
  | .ok b => b
  | .error _ => false

/-- The query-cache coordination skeleton of
`find_nearby_locations` (backend/app.py lines 283-350), the code the
spec calls `QueryCacheCoordinator.resolve`: probe the cache
(`if cached_result:` — a Python truthiness test), return the parsed
hit; otherwise run the caller's `compute` (the database query), cache
its result ignoring the `set` outcome, and return it.  The result
triple carries the outcome (or the propagated exception), the cache
state, and how many times `compute` ran. -/
def resolve (h : String → String) (query_type : String) (params : PyVal)
    (compute : Except PyErr PyVal) (st : RState) :
    Except PyErr PyVal × RState × Nat :=
  match get_cached_query_result h st query_type params with
  | .error e => (.error e, st, 0)
  | .ok cached =>
    if jtruthy cached then (.ok (ofJson cached), st, 0)
    else
      match compute with
      | .error e => (.error e, st, 1)
      | .ok result =>
        match cache_query_result h st query_type params result none with
        | .error e => (.error e, st, 1)
        | .ok (_, st') => (.ok result, st', 1)

end GeoCache

/-- An empty, reachable backend at time 0 with the default
`ttl_seconds=3600` configuration. -/
def stUp : RState := ⟨[], [], true, 0, 3600⟩

/-- An unreachable backend. -/
def stDown : RState := ⟨[], [], false, 0, 3600⟩

/-- The spec's prefix-invalidation scenario: `geo:nearby:a`,
`geo:nearby:b` and `geo:within:c` stored and unexpired. -/
def stPrefix : RState :=
  ⟨[⟨"geo:nearby:a", .jstr "A", 100⟩, ⟨"geo:nearby:b", .jstr "B", 100⟩,
    ⟨"geo:within:c", .jstr "C", 100⟩], [], true, 0, 3600⟩

/-- The spec's proximity scenario: points A(0,0), B(0,1), C(0,5)
indexed. -/
def stGeo : RState :=
  ⟨[], [⟨"A", 0, 0⟩, ⟨"B", 0, 1⟩, ⟨"C", 0, 5⟩], true, 0, 3600⟩

/-- A concrete stand-in for the great-circle distance, adequate for
the scenario's points on a common meridian: taxicab distance in
degrees scaled by roughly one hundred kilometres per degree. -/
def dLin (lon1 lat1 lon2 lat2 : ℚ) : ℚ :=
  (|lon2 - lon1| + |lat2 - lat1|) * 100

/-- The spec's resolve-idempotence parameter set `{type: "county"}`. -/
def paramsCounty : PyVal := .pydict [(.kstr "type", .pystr "county")]

/-- A backend holding one entry for `"k"` whose expiration (time 1)
has already passed (the clock is at 2). -/
def stExp : RState := ⟨[⟨"k", .jstr "v", 1⟩], [], true, 2, 3600⟩

theorem nodupB_cons {x : String} {t : List String} :
    nodupB (x :: t) = true ↔ x ∉ t ∧ nodupB t = true := by
  simp [nodupB, List.contains, List.elem_iff]

mutual
theorem toJson_ofJson : ∀ w : JVal, toJson (ofJson w) = .ok w
  | .jnull => rfl
  | .jbool _ => rfl
  | .jint _ => rfl
  | .jstr _ => rfl
  | .jarr xs => by
      simp [ofJson, toJson, toJson_ofJsonList xs, Bind.bind, Except.bind]
  | .jobj kvs => by
      simp [ofJson, toJson, toJson_ofJsonKvs kvs, Bind.bind, Except.bind]
termination_by structural w => w

theorem toJson_ofJsonList : ∀ l : List JVal, toJsonList (ofJsonList l) = .ok l
  | [] => rfl
  | x :: t => by
      simp [ofJsonList, toJsonList, toJson_ofJson x, toJson_ofJsonList t,
        Bind.bind, Except.bind]
termination_by structural l => l

theorem toJson_ofJsonKvs : ∀ l : List (String × JVal),
    toJsonPairs (ofJsonKvs l) = .ok l
  | [] => rfl
  | (k, v) :: t => by
      simp [ofJsonKvs, toJsonPairs, toJson_ofJson v, toJson_ofJsonKvs t,
        PyKey.render, Bind.bind, Except.bind]
termination_by structural l => l
end

theorem upsertPair_notmem (k : String) (v : JVal) :
    ∀ l : List (String × JVal), k ∉ l.map Prod.fst →
      upsertPair k v l = l ++ [(k, v)] := by
  intro l
  induction l with
  | nil => intro _; rfl
  | cons a t ih =>
    intro h
    simp only [List.map_cons, List.mem_cons, not_or] at h
    simp [upsertPair, Ne.symm h.1, ih h.2]

theorem foldl_upsert_append :
    ∀ (l acc : List (String × JVal)),
      nodupB (l.map Prod.fst) = true →
      (∀ k', k' ∈ l.map Prod.fst → k' ∉ acc.map Prod.fst) →
      l.foldl (fun acc kv => upsertPair kv.1 kv.2 acc) acc = acc ++ l := by
  intro l
  induction l with
  | nil => intro acc _ _; simp
  | cons a t ih =>
    intro acc hnd hdisj
    rw [List.map_cons, nodupB_cons] at hnd
    have ha : a.1 ∉ acc.map Prod.fst := hdisj a.1 (by simp)
    have hstep : upsertPair a.1 a.2 acc = acc ++ [a] := by
      have := upsertPair_notmem a.1 a.2 acc ha
      simpa using this
    have hdisj' : ∀ k', k' ∈ t.map Prod.fst → k' ∉ (acc ++ [a]).map Prod.fst := by
      intro k' hk'
      simp only [List.map_append, List.mem_append, List.map_cons, List.map_nil,
        List.mem_singleton, not_or]
      refine ⟨hdisj k' (by simp [hk']), ?_⟩
      intro heq
      exact hnd.1 (heq ▸ hk')
    simp only [List.foldl_cons, hstep]
    rw [ih (acc ++ [a]) hnd.2 hdisj']
    simp

theorem dedupPairs_id (l : List (String × JVal))
    (h : nodupB (l.map Prod.fst) = true) : dedupPairs l = l := by
  have := foldl_upsert_append l [] h (by simp)
  simpa [dedupPairs] using this

theorem dedupKvs_keys : ∀ l : List (String × JVal),
    (dedupKvs l).map Prod.fst = l.map Prod.fst
  | [] => rfl
  | (k, v) :: t => by simp [dedupKvs, dedupKvs_keys t]

mutual
theorem dedupLast_id : ∀ w : JVal, WFj w = true → dedupLast w = w
  | .jnull, _ => rfl
  | .jbool _, _ => rfl
  | .jint _, _ => rfl
  | .jstr _, _ => rfl
  | .jarr xs, h => by
      simp only [WFj] at h
      simp [dedupLast, dedupList_id xs h]
  | .jobj kvs, h => by
      simp only [WFj, Bool.and_eq_true] at h
      have hk : dedupKvs kvs = kvs := dedupKvs_id kvs h.2
      simp [dedupLast, hk, dedupPairs_id kvs h.1]
termination_by structural w => w

theorem dedupList_id : ∀ l : List JVal, WFjList l = true → dedupList l = l
  | [], _ => rfl
  | x :: t, h => by
      simp only [WFjList, Bool.and_eq_true] at h
      simp [dedupList, dedupLast_id x h.1, dedupList_id t h.2]
termination_by structural l => l

theorem dedupKvs_id : ∀ l : List (String × JVal),
    WFjKvs l = true → dedupKvs l = l
  | [], _ => rfl
  | (k, v) :: t, h => by
      simp only [WFjKvs, Bool.and_eq_true] at h
      simp [dedupKvs, dedupLast_id v h.1, dedupKvs_id t h.2]
termination_by structural l => l
end

theorem set_some_ok (st : RState) (k : String) (v : PyVal) (j : JVal) (t : ℚ)
    (hre : st.reachable = true) (hj : toJson v = .ok j)
    (hden : t.den = 1) (hpos : 0 < t) :
    GeoCache.set st k v (some t) =
      (true, { st with kv := (⟨k, dedupLast j, st.now + t⟩ ::
        st.kv.filter (fun e => e.key ≠ k)) }) := by
  have hcond : ¬(t.den ≠ 1 ∨ t ≤ 0) := by
    push_neg
    exact ⟨hden, hpos⟩
  simp [GeoCache.set, GeoCache.set_body, hj, redisSetex, hre, hcond,
    Bind.bind, Except.bind]

theorem set_none_ok (st : RState) (k : String) (v : PyVal) (j : JVal)
    (hre : st.reachable = true) (hj : toJson v = .ok j)
    (hden : st.ttl.den = 1) (hpos : 0 < st.ttl) :
    GeoCache.set st k v none =
      (true, { st with kv := (⟨k, dedupLast j, st.now + st.ttl⟩ ::
        st.kv.filter (fun e => e.key ≠ k)) }) := by
  have hcond : ¬(st.ttl.den ≠ 1 ∨ st.ttl ≤ 0) := by
    push_neg
    exact ⟨hden, hpos⟩
  simp [GeoCache.set, GeoCache.set_body, hj, redisSetex, hre, hcond,
    Bind.bind, Except.bind]

theorem get_cons_hit (st : RState) (k : String) (v : JVal) (ex : ℚ)
    (rest : List CacheEntry) (hre : st.reachable = true)
    (hlive : st.now < ex) :
    GeoCache.get { st with kv := (⟨k, v, ex⟩ :: rest) } k = v := by
  simp [GeoCache.get, redisGet, hre, List.find?, live, hlive]

theorem get_all_expired (st : RState) (k : String)
    (h : ∀ e ∈ st.kv, e.key = k → e.expiresAt ≤ st.now) :
    GeoCache.get st k = .jnull := by
  cases hre : st.reachable with
  | false => simp [GeoCache.get, redisGet, hre]
  | true =>
    have hnone : st.kv.find? (fun e => e.key == k && live st e) = none := by
      rw [List.find?_eq_none]
      intro e he
      simp only [Bool.and_eq_true, beq_iff_eq, live, decide_eq_true_eq, not_and]
      intro hk
      exact not_lt.mpr (h e he hk)
    simp [GeoCache.get, redisGet, hre, hnone]

/-- C7: when the backing store is unreachable, every public cache
operation reports a false / absent / empty / zero outcome with the
state unchanged, instead of propagating the transport error: `get`
returns `None`, `set` and `delete` return `False`,
`invalidate_by_prefix` returns 0, `find_nearby_points` returns `[]`,
and `health_check` returns `False` without throwing. -/
theorem backend_outage_degrades (st : RState) (k : String) (v : PyVal)
    (ttl : Option ℚ) (p : String) (lon lat r : ℚ) (cnt : Option Nat)
    (d : ℚ → ℚ → ℚ → ℚ → ℚ) (h : st.reachable = false) :
    GeoCache.get st k = .jnull ∧
    GeoCache.set st k v ttl = (false, st) ∧
    GeoCache.delete st k = (false, st) ∧
    GeoCache.invalidate_by_pref st p = (0, st) ∧
    GeoCache.find_nearby_points st lon lat r cnt d = [] ∧
    GeoCache.health_check st = false := by
  refine ⟨?_, ?_, ?_, ?_, ?_, ?_⟩
  · simp [GeoCache.get, redisGet, h]
  · cases hj : toJson v with
    | error e => simp [GeoCache.set, GeoCache.set_body, hj, Bind.bind, Except.bind]
    | ok j => simp [GeoCache.set, GeoCache.set_body, hj, redisSetex, h,
        Bind.bind, Except.bind]
  · simp [GeoCache.delete, redisDel, h]
  · simp [GeoCache.invalidate_by_pref, GeoCache.inv_body, redisKeys, h,
      Bind.bind, Except.bind]
  · simp [GeoCache.find_nearby_points, GeoCache.fnp_body, georadiusPy, h,
      Bind.bind, Except.bind]
  · simp [GeoCache.health_check, redisPing, h]

/-- Witness for C7 at a concrete unreachable state. -/
theorem backend_outage_degrades_witness :
    stDown.reachable = false ∧
    (GeoCache.get stDown "k" = .jnull ∧
     GeoCache.set stDown "k" .pynone none = (false, stDown) ∧
     GeoCache.delete stDown "k" = (false, stDown) ∧
     GeoCache.invalidate_by_pref stDown "nearby" = (0, stDown) ∧
     GeoCache.find_nearby_points stDown 0 0 200 none dLin = [] ∧
     GeoCache.health_check stDown = false) :=
  ⟨rfl, backend_outage_degrades stDown "k" .pynone none "nearby" 0 0 200 none
    dLin rfl⟩

/-- C8 counterexample: `set` with TTL 0 does not fail with an
`InvalidTTLError` — the backend's rejection (`ResponseError`) is
raised inside the `try` block and swallowed by
`except Exception: return False`, so the call completes normally with
`False` and an unchanged store. -/
theorem set_zero_ttl_cex :
    GeoCache.set_body stUp "k" .pynone (some 0) = .error .respError ∧
    GeoCache.set stUp "k" .pynone (some 0) = (false, stUp) := by
  constructor <;> rfl

/-- C8 (amended): `set` with a TTL that is not a positive integer
returns `False` with the store unchanged (the backend rejects the
expiration and the exception is caught and logged, not raised), while
an omitted TTL stores the entry under the configured store-wide
default `ttl_seconds`. -/
theorem set_ttl_contract :
    (∀ (st : RState) (k : String) (v : PyVal) (t : ℚ),
        st.reachable = true → t.den ≠ 1 ∨ t ≤ 0 →
        GeoCache.set st k v (some t) = (false, st)) ∧
    (∀ (st : RState) (k : String) (v : PyVal) (j : JVal),
        st.reachable = true → toJson v = .ok j →
        st.ttl.den = 1 → 0 < st.ttl →
        GeoCache.set st k v none =
          (true, { st with kv := (⟨k, dedupLast j, st.now + st.ttl⟩ ::
            st.kv.filter (fun e => e.key ≠ k)) })) := by
  constructor
  · intro st k v t hre hbad
    cases hj : toJson v with
    | error e =>
      simp [GeoCache.set, GeoCache.set_body, hj, Bind.bind, Except.bind]
    | ok j =>
      simp [GeoCache.set, GeoCache.set_body, hj, redisSetex, hre, hbad,
        Bind.bind, Except.bind]
  · intro st k v j hre hj hden hpos
    exact set_none_ok st k v j hre hj hden hpos

/-- Witness for C8's amended theorem at concrete inputs. -/
theorem set_ttl_contract_witness :
    (stUp.reachable = true ∧ ((0 : ℚ).den ≠ 1 ∨ (0 : ℚ) ≤ 0) ∧
      GeoCache.set stUp "k" .pynone (some 0) = (false, stUp)) ∧
    (toJson (.pyint 7) = .ok (.jint 7) ∧ stUp.ttl.den = 1 ∧ 0 < stUp.ttl ∧
      GeoCache.set stUp "k" (.pyint 7) none =
        (true, { stUp with kv := (⟨"k", dedupLast (.jint 7),
          stUp.now + stUp.ttl⟩ :: stUp.kv.filter (fun e => e.key ≠ "k")) })) :=
  ⟨⟨rfl, Or.inr le_rfl,
      set_ttl_contract.1 stUp "k" .pynone 0 rfl (Or.inr le_rfl)⟩,
   ⟨rfl, rfl, by norm_num [stUp],
      set_ttl_contract.2 stUp "k" (.pyint 7) (.jint 7) rfl rfl rfl
        (by norm_num [stUp])⟩⟩

/-- C5: a `get` after the entry's expiration has been reached reports
absence (`None`), and `set(k, v, 1)` immediately followed by `get(k)`
returns `v` (stated for any well-formed parsed-JSON value `v`, for
which the dumps/loads round trip is the identity). -/
theorem ttl_expiry_contract :
    (∀ (st : RState) (k : String),
        (∀ e ∈ st.kv, e.key = k → e.expiresAt ≤ st.now) →
        GeoCache.get st k = .jnull) ∧
    (∀ (st : RState) (k : String) (w : JVal),
        st.reachable = true → WFj w = true →
        (GeoCache.set st k (ofJson w) (some 1)).1 = true ∧
        GeoCache.get (GeoCache.set st k (ofJson w) (some 1)).2 k = w) := by
  constructor
  · exact get_all_expired
  · intro st k w hre hwf
    have hset := set_some_ok st k (ofJson w) w 1 hre (toJson_ofJson w) rfl
      (by norm_num)
    rw [dedupLast_id w hwf] at hset
    refine ⟨by rw [hset], ?_⟩
    rw [hset]
    exact get_cons_hit st k w (st.now + 1) _ hre (by norm_num)

/-- Witness for C5: the expired entry of `stExp` reads as absent, and
a fresh `set`/`get` round trip on `stUp` returns the value. -/
theorem ttl_expiry_contract_witness :
    ((∀ e ∈ stExp.kv, e.key = "k" → e.expiresAt ≤ stExp.now) ∧
      GeoCache.get stExp "k" = .jnull) ∧
    (stUp.reachable = true ∧ WFj (.jstr "v") = true ∧
      GeoCache.get (GeoCache.set stUp "k" (ofJson (.jstr "v")) (some 1)).2 "k" =
        .jstr "v") :=
  ⟨⟨by intro e he hk; simp [stExp] at he; norm_num [he, stExp], by
      exact ttl_expiry_contract.1 stExp "k"
        (by intro e he hk; simp [stExp] at he; norm_num [he, stExp])⟩,
   ⟨rfl, rfl, (ttl_expiry_contract.2 stUp "k" (.jstr "v") rfl rfl).2⟩⟩

/-- C10: after a successful `set(key, v, ttl)` and before expiry,
`get(key)` returns the JSON round trip of `v` (the `json.loads` of the
`json.dumps` of `v`, i.e. `dedupLast` of `toJson v`), not `v` itself;
for values built from JSON-faithful constructors the two coincide
(`get` returns exactly the embedded value), while tuples come back as
lists and non-string mapping keys come back stringified, as the two
closing conjuncts exhibit. -/
theorem set_get_roundtrip :
    (∀ (st : RState) (k : String) (v : PyVal) (j : JVal) (t : ℚ),
        st.reachable = true → toJson v = .ok j → t.den = 1 → 0 < t →
        (GeoCache.set st k v (some t)).1 = true ∧
        GeoCache.get (GeoCache.set st k v (some t)).2 k = dedupLast j) ∧
    (∀ (w : JVal) (st : RState) (k : String) (t : ℚ),
        WFj w = true → st.reachable = true → t.den = 1 → 0 < t →
        GeoCache.get (GeoCache.set st k (ofJson w) (some t)).2 k = w) ∧
    toJson (.pytuple [.pyint 1]) = .ok (.jarr [.jint 1]) ∧
    toJson (.pydict [(.kint 3, .pyint 4)]) = .ok (.jobj [("3", .jint 4)]) := by
  have main : ∀ (st : RState) (k : String) (v : PyVal) (j : JVal) (t : ℚ),
      st.reachable = true → toJson v = .ok j → t.den = 1 → 0 < t →
      (GeoCache.set st k v (some t)).1 = true ∧
      GeoCache.get (GeoCache.set st k v (some t)).2 k = dedupLast j := by
    intro st k v j t hre hj hden hpos
    have hset := set_some_ok st k v j t hre hj hden hpos
    refine ⟨by rw [hset], ?_⟩
    rw [hset]
    exact get_cons_hit st k (dedupLast j) (st.now + t) _ hre (by linarith)
  refine ⟨main, ?_, rfl, rfl⟩
  intro w st k t hwf hre hden hpos
  have := (main st k (ofJson w) w t hre (toJson_ofJson w) hden hpos).2
  rwa [dedupLast_id w hwf] at this

/-- Witness for C10 at concrete inputs: a stored tuple is read back as
a list. -/
theorem set_get_roundtrip_witness :
    stUp.reachable = true ∧ toJson (.pytuple [.pyint 1]) = .ok (.jarr [.jint 1]) ∧
    (1 : ℚ).den = 1 ∧ (0 : ℚ) < 1 ∧
    GeoCache.get (GeoCache.set stUp "k" (.pytuple [.pyint 1]) (some 1)).2 "k" =
      dedupLast (.jarr [.jint 1]) :=
  ⟨rfl, rfl, rfl, by norm_num,
    (set_get_roundtrip.1 stUp "k" (.pytuple [.pyint 1]) (.jarr [.jint 1]) 1 rfl
      rfl rfl (by norm_num)).2⟩

/-- C6: when the caller-supplied compute step fails, the coordinator
leaves the cache state unchanged (a failed computation never populates
the cache), and on a miss the compute error propagates unchanged to
the caller. -/
theorem compute_error_contract (hf : String → String) (qt : String)
    (params : PyVal) (st : RState) (e : PyErr) :
    (GeoCache.resolve hf qt params (.error e) st).2.1 = st ∧
    (∀ c, GeoCache.get_cached_query_result hf st qt params = .ok c →
      jtruthy c = false →
      (GeoCache.resolve hf qt params (.error e) st).1 = .error e) := by
  cases hg : GeoCache.get_cached_query_result hf st qt params with
  | error e' =>
    refine ⟨by simp [GeoCache.resolve, hg], ?_⟩
    intro c hc
    exact absurd hc (by simp)
  | ok c =>
    cases ht : jtruthy c with
    | true =>
      refine ⟨by simp [GeoCache.resolve, hg, ht], ?_⟩
      intro c' hc' hfalse
      injection hc' with hcc
      subst hcc
      rw [ht] at hfalse
      exact absurd hfalse (by simp)
    | false =>
      refine ⟨by simp [GeoCache.resolve, hg, ht], ?_⟩
      intro c' _ _
      simp [GeoCache.resolve, hg, ht]

/-- Witness for C6: a failing compute on an empty cache propagates and
leaves the state unchanged. -/
theorem compute_error_contract_witness :
    (GeoCache.resolve id "nearby" paramsCounty (.error .valueError) stUp).2.1 =
      stUp ∧
    (GeoCache.get_cached_query_result id stUp "nearby" paramsCounty =
      .ok .jnull ∧
     jtruthy .jnull = false ∧
     (GeoCache.resolve id "nearby" paramsCounty (.error .valueError) stUp).1 =
      .error .valueError) :=
  ⟨(compute_error_contract id "nearby" paramsCounty stUp .valueError).1,
   ⟨rfl, rfl,
    (compute_error_contract id "nearby" paramsCounty stUp .valueError).2
      .jnull rfl rfl⟩⟩

/-- The key `generate_key` derives for the `{type: "county"}`
parameter set under the identity digest. -/
def countyKey : String := "geo:locations:\x7b\"type\": \"county\"\x7d"

/-- The cache state after resolving the county query once with a
compute step that returned the empty list. -/
def stCounty : RState := ⟨[⟨countyKey, .jarr [], 0 + 3600⟩], [], true, 0, 3600⟩

/-- C2 counterexample: with `{type: "county"}` resolved twice in
succession and a compute step returning the empty list, the first call
populates the cache — the middle conjunct shows the derived key then
holds a present, unexpired cached value `[]` — yet the second call
invokes compute again (`if cached_result:` treats the falsy `[]` as a
miss), so compute runs twice, not once. -/
theorem resolve_falsy_hit_cex :
    GeoCache.resolve id "locations" paramsCounty (.ok (.pylist [])) stUp =
      (.ok (.pylist []), stCounty, 1) ∧
    GeoCache.get_cached_query_result id stCounty "locations" paramsCounty =
      .ok (.jarr []) ∧
    (GeoCache.resolve id "locations" paramsCounty (.ok (.pylist []))
      stCounty).2.2 = 1 := by
  have hset : GeoCache.set stUp countyKey (.pylist []) none =
      (true, stCounty) := by
    have := set_none_ok stUp countyKey (.pylist []) (.jarr []) rfl rfl rfl
      (by norm_num [stUp])
    simpa [stUp, stCounty, dedupLast, dedupList, dedupPairs] using this
  have hget : GeoCache.get stCounty countyKey = .jarr [] := by
    have := get_cons_hit ⟨[], [], true, 0, 3600⟩ countyKey (.jarr []) (0 + 3600)
      [] rfl (by norm_num)
    simpa [stCounty] using this
  have hgc : GeoCache.get_cached_query_result id stCounty "locations"
      paramsCounty = .ok (.jarr []) := by
    show (do
      let key ← GeoCache.generate_key id "locations" paramsCounty
      .ok (GeoCache.get stCounty key)) = _
    have hk : GeoCache.generate_key id "locations" paramsCounty =
        .ok countyKey := rfl
    rw [hk]
    show Except.ok (GeoCache.get stCounty countyKey) = _
    rw [hget]
  refine ⟨?_, hgc, ?_⟩
  · have hg0 : GeoCache.get_cached_query_result id stUp "locations"
        paramsCounty = .ok .jnull := rfl
    have hcq : GeoCache.cache_query_result id stUp "locations" paramsCounty
        (.pylist []) none = .ok (true, stCounty) := by
      show (do
        let key ← GeoCache.generate_key id "locations" paramsCounty
        .ok (GeoCache.set stUp key (.pylist []) none)) = _
      have hk : GeoCache.generate_key id "locations" paramsCounty =
          .ok countyKey := rfl
      rw [hk]
      show Except.ok (GeoCache.set stUp countyKey (.pylist []) none) = _
      rw [hset]
    simp [GeoCache.resolve, hg0, jtruthy, hcq]
  · cases h3 : GeoCache.cache_query_result id stCounty "locations" paramsCounty
        (.pylist []) none with
    | error e => simp [GeoCache.resolve, hgc, jtruthy, h3]
    | ok r =>
      obtain ⟨b, st'⟩ := r
      simp [GeoCache.resolve, hgc, jtruthy, h3]

theorem get_cached_ok_key (hf : String → String) (qt : String)
    (params : PyVal) (st : RState) (c : JVal)
    (hg : GeoCache.get_cached_query_result hf st qt params = .ok c) :
    ∃ key, GeoCache.generate_key hf qt params = .ok key ∧
      GeoCache.get st key = c := by
  cases hk : GeoCache.generate_key hf qt params with
  | error e =>
    rw [GeoCache.get_cached_query_result] at hg
    simp [hk, Bind.bind, Except.bind] at hg
  | ok key =>
    rw [GeoCache.get_cached_query_result] at hg
    simp only [hk, Bind.bind, Except.bind, Except.ok.injEq] at hg
    exact ⟨key, rfl, hg⟩

/-- C2 (amended): when the derived key holds a present, unexpired and
truthy cached value, the coordinator returns it and compute is never
invoked; and resolving the same (namespace, params) twice in
succession from a miss, with compute producing a truthy well-formed
value, invokes compute exactly once in total — the second call is
served from cache without invoking compute.  (The truthiness proviso
is forced by the counterexample: a falsy cached value is treated as a
miss.) -/
theorem resolve_hit_contract :
    (∀ (hf : String → String) (qt : String) (params : PyVal) (st : RState)
        (compute : Except PyErr PyVal) (c : JVal),
        GeoCache.get_cached_query_result hf st qt params = .ok c →
        jtruthy c = true →
        GeoCache.resolve hf qt params compute st = (.ok (ofJson c), st, 0)) ∧
    (∀ (hf : String → String) (qt : String) (params : PyVal) (st : RState)
        (v : PyVal) (j : JVal) (c₀ : JVal),
        st.reachable = true →
        GeoCache.get_cached_query_result hf st qt params = .ok c₀ →
        jtruthy c₀ = false →
        toJson v = .ok j → WFj j = true → jtruthy j = true →
        st.ttl.den = 1 → 0 < st.ttl →
        (GeoCache.resolve hf qt params (.ok v) st).2.2 = 1 ∧
        GeoCache.resolve hf qt params (.ok v)
            (GeoCache.resolve hf qt params (.ok v) st).2.1 =
          (.ok (ofJson j),
           (GeoCache.resolve hf qt params (.ok v) st).2.1, 0)) := by
  have hit : ∀ (hf : String → String) (qt : String) (params : PyVal)
      (st : RState) (compute : Except PyErr PyVal) (c : JVal),
      GeoCache.get_cached_query_result hf st qt params = .ok c →
      jtruthy c = true →
      GeoCache.resolve hf qt params compute st = (.ok (ofJson c), st, 0) := by
    intro hf qt params st compute c hg ht
    simp [GeoCache.resolve, hg, ht]
  refine ⟨hit, ?_⟩
  intro hf qt params st v j c₀ hre hg hc0 hj hwf htr hden hpos
  obtain ⟨key, hk, _⟩ := get_cached_ok_key hf qt params st c₀ hg
  have hsetEq : GeoCache.set st key v none =
      (true, { st with kv := (⟨key, j, st.now + st.ttl⟩ ::
        st.kv.filter (fun e => e.key ≠ key)) }) := by
    have := set_none_ok st key v j hre hj hden hpos
    rwa [dedupLast_id j hwf] at this
  have hcq : GeoCache.cache_query_result hf st qt params v none =
      .ok (true, { st with kv := (⟨key, j, st.now + st.ttl⟩ ::
        st.kv.filter (fun e => e.key ≠ key)) }) := by
    rw [GeoCache.cache_query_result]
    simp only [hk, Bind.bind, Except.bind, hsetEq]
  have h1 : GeoCache.resolve hf qt params (.ok v) st =
      (.ok v, { st with kv := (⟨key, j, st.now + st.ttl⟩ ::
        st.kv.filter (fun e => e.key ≠ key)) }, 1) := by
    simp [GeoCache.resolve, hg, hc0, hcq]
  have hget1 : GeoCache.get { st with kv := (⟨key, j, st.now + st.ttl⟩ ::
      st.kv.filter (fun e => e.key ≠ key)) } key = j :=
    get_cons_hit st key j (st.now + st.ttl) _ hre (by linarith)
  have hg1 : GeoCache.get_cached_query_result hf
      { st with kv := (⟨key, j, st.now + st.ttl⟩ ::
        st.kv.filter (fun e => e.key ≠ key)) } qt params = .ok j := by
    rw [GeoCache.get_cached_query_result]
    simp only [hk, Bind.bind, Except.bind, hget1]
  refine ⟨by rw [h1], ?_⟩
  rw [h1]
  exact hit hf qt params _ (.ok v) j hg1 htr

/-- Witness for C2's amended theorem: resolving the county query twice
from an empty cache with compute returning `["x"]` invokes compute
once, the second call returning the cached list. -/
theorem resolve_hit_contract_witness :
    (stUp.reachable = true ∧
     GeoCache.get_cached_query_result id stUp "locations" paramsCounty =
       .ok .jnull ∧
     jtruthy .jnull = false ∧
     toJson (.pylist [.pystr "x"]) = .ok (.jarr [.jstr "x"]) ∧
     WFj (.jarr [.jstr "x"]) = true ∧ jtruthy (.jarr [.jstr "x"]) = true ∧
     stUp.ttl.den = 1 ∧ 0 < stUp.ttl) ∧
    (GeoCache.resolve id "locations" paramsCounty
        (.ok (.pylist [.pystr "x"])) stUp).2.2 = 1 ∧
    GeoCache.resolve id "locations" paramsCounty (.ok (.pylist [.pystr "x"]))
        (GeoCache.resolve id "locations" paramsCounty
          (.ok (.pylist [.pystr "x"])) stUp).2.1 =
      (.ok (ofJson (.jarr [.jstr "x"])),
       (GeoCache.resolve id "locations" paramsCounty
         (.ok (.pylist [.pystr "x"])) stUp).2.1, 0) := by
  have hpos : 0 < stUp.ttl := by norm_num [stUp]
  refine ⟨⟨rfl, rfl, rfl, rfl, rfl, rfl, rfl, hpos⟩, ?_⟩
  exact resolve_hit_contract.2 id "locations" paramsCounty stUp
    (.pylist [.pystr "x"]) (.jarr [.jstr "x"]) .jnull rfl rfl rfl rfl rfl rfl
    rfl hpos

/-- Characters with no special glob meaning. -/
def noMetaChar (c : Char) : Bool :=
  !(c == '*' || c == '?' || c == '[' || c == ']' || c == '\\')

/-- A string free of glob metacharacters. -/
def noMetaStr (s : String) : Bool := s.toList.all noMetaChar

/-- Boolean string-prefix test (code-point wise). -/
def strPrefB (a b : String) : Bool := a.toList.isPrefixOf b.toList

theorem tails_any_isEmpty : ∀ s : List Char, (s.tails.any List.isEmpty) = true
  | [] => rfl
  | _ :: t => by
      simp only [List.tails_cons, List.any_cons, tails_any_isEmpty t,
        Bool.or_true]

theorem globMatch_lit_star :
    ∀ lit s : List Char, lit.all noMetaChar = true →
      globMatch (lit ++ ['*']) s = lit.isPrefixOf s := by
  intro lit
  induction lit with
  | nil =>
    intro s _
    have : globMatch ['*'] s = true := by
      simp [globMatch, tails_any_isEmpty s]
    simp [this, List.isPrefixOf]
  | cons p ps ih =>
    intro s hall
    simp only [List.all_cons, Bool.and_eq_true] at hall
    have hp : ¬(p = '*') ∧ ¬(p = '?') := by
      have := hall.1
      simp only [noMetaChar, Bool.not_eq_true', Bool.or_eq_false_iff,
        beq_eq_false_iff_ne, ne_eq] at this
      exact ⟨this.1.1.1.1, this.1.1.1.2⟩
    cases s with
    | nil =>
      simp [globMatch, hp.1, List.isPrefixOf]
    | cons c cs =>
      simp [globMatch, hp.1, hp.2, List.isPrefixOf, ih cs hall.2]

theorem globMatchS_startsWith (p s : String) (hp : noMetaStr p = true) :
    globMatchS ("geo:" ++ p ++ ":*") s = strPrefB ("geo:" ++ p ++ ":") s := by
  have h1 : ("geo:" ++ p ++ ":*").toList =
      ("geo:" ++ p ++ ":").toList ++ ['*'] := by
    simp [String.toList, String.data_append]
  have h2 : ("geo:" ++ p ++ ":").toList.all noMetaChar = true := by
    simp only [String.toList, String.data_append, List.all_append,
      Bool.and_eq_true]
    exact ⟨⟨rfl, hp⟩, rfl⟩
  rw [globMatchS, h1, globMatch_lit_star _ _ h2, strPrefB]

theorem strPrefB_points (p : String) :
    strPrefB ("geo:" ++ p ++ ":") "geo:points" = false := by
  rw [strPrefB]
  by_contra h
  rw [Bool.not_eq_false, List.isPrefixOf_iff_prefix] at h
  have hshape : ("geo:" ++ p ++ ":").toList =
      'g' :: 'e' :: 'o' :: ':' :: (p.toList ++ [':']) := by
    simp [String.toList, String.data_append]
  rw [hshape] at h
  have hpts : ("geo:points").toList =
      'g' :: 'e' :: 'o' :: ':' :: ['p', 'o', 'i', 'n', 't', 's'] := rfl
  rw [hpts] at h
  simp only [List.cons_prefix_cons, true_and] at h
  have hmem : ':' ∈ (['p', 'o', 'i', 'n', 't', 's'] : List Char) :=
    h.subset (by simp)
  simp at hmem

theorem keys_pattern (st : RState) (p : String) (hre : st.reachable = true)
    (hp : noMetaStr p = true) :
    redisKeys st ("geo:" ++ p ++ ":*") =
      .ok (((st.kv.filter (live st)).map CacheEntry.key).filter
        (strPrefB ("geo:" ++ p ++ ":"))) := by
  have hpts : globMatchS ("geo:" ++ p ++ ":*") "geo:points" = false := by
    rw [globMatchS_startsWith p _ hp, strPrefB_points]
  rw [redisKeys]
  simp only [hre, if_true, hpts, Bool.and_false, Bool.false_eq_true, if_false,
    List.append_nil]
  congr 1
  exact List.filter_congr (fun k _ => globMatchS_startsWith p k hp)

theorem filterFilter (p q : α → Bool) :
    ∀ l : List α, (l.filter p).filter q = l.filter (fun a => p a && q a) := by
  intro l
  induction l with
  | nil => rfl
  | cons a t ih =>
    cases hp : p a <;> cases hq : q a <;>
      simp [List.filter_cons, hp, hq, ih]

theorem find?_filter_keep (pf pk : α → Bool)
    (himp : ∀ e, pf e = true → pk e = true) :
    ∀ l : List α, (l.filter pk).find? pf = l.find? pf := by
  intro l
  induction l with
  | nil => rfl
  | cons a t ih =>
    cases hk : pk a with
    | true =>
      cases hf : pf a <;>
        simp [List.filter_cons, hk, List.find?_cons, hf, ih]
    | false =>
      have hf : pf a = false := by
        cases hfa : pf a with
        | false => rfl
        | true => rw [himp a hfa] at hk; exact absurd hk (by simp)
      simp [List.filter_cons, hk, List.find?_cons, hf, ih]

theorem get_eq_of_find_eq (st₁ st₂ : RState) (k : String)
    (h₁ : st₁.reachable = true) (h₂ : st₂.reachable = true)
    (hf : st₁.kv.find? (fun e => e.key == k && live st₁ e) =
      st₂.kv.find? (fun e => e.key == k && live st₂ e)) :
    GeoCache.get st₁ k = GeoCache.get st₂ k := by
  simp [GeoCache.get, redisGet, h₁, h₂, hf]

/-- C3 (amended): `invalidate_by_prefix(p)` removes exactly the
entries whose key starts with `"geo:" ++ p ++ ":"` — the argument is
wrapped into the pattern `geo:{p}:*`, so it is the middle namespace
component, not a raw key prefix — returning their number, and 0 (not
an error) when nothing matches; every other key remains retrievable
unchanged. -/
theorem invalidate_contract (st : RState) (p : String)
    (hre : st.reachable = true) (hpm : noMetaStr p = true)
    (hnd : (st.kv.map CacheEntry.key).Nodup) :
    (GeoCache.invalidate_by_pref st p).1 =
      (st.kv.filter (fun e => live st e &&
        strPrefB ("geo:" ++ p ++ ":") e.key)).length ∧
    ∀ k, GeoCache.get (GeoCache.invalidate_by_pref st p).2 k =
      (if strPrefB ("geo:" ++ p ++ ":") k = true then JVal.jnull
       else GeoCache.get st k) := by
  have hkeys := keys_pattern st p hre hpm
  have hmklist : ((st.kv.filter (live st)).map CacheEntry.key).filter
      (strPrefB ("geo:" ++ p ++ ":")) =
      (st.kv.filter (fun e => live st e &&
        strPrefB ("geo:" ++ p ++ ":") e.key)).map CacheEntry.key := by
    rw [List.filter_map, filterFilter]
    rfl
  by_cases hmk : ((st.kv.filter (live st)).map CacheEntry.key).filter
      (strPrefB ("geo:" ++ p ++ ":")) = []
  · have hres : GeoCache.invalidate_by_pref st p = (0, st) := by
      rw [GeoCache.invalidate_by_pref, GeoCache.inv_body]
      simp [hkeys, hmk, Bind.bind, Except.bind]
    have hfnil : st.kv.filter (fun e => live st e &&
        strPrefB ("geo:" ++ p ++ ":") e.key) = [] := by
      rw [hmklist] at hmk
      exact List.map_eq_nil_iff.mp hmk
    constructor
    · rw [hres, hfnil]
      rfl
    · intro k
      rw [hres]
      by_cases hpk : strPrefB ("geo:" ++ p ++ ":") k = true
      · rw [if_pos hpk]
        apply get_all_expired
        intro e he hek
        by_contra hlt
        have hlive : live st e = true := by
          simp [live]
          exact lt_of_not_le hlt
        have hin : e ∈ st.kv.filter (fun e => live st e &&
            strPrefB ("geo:" ++ p ++ ":") e.key) :=
          List.mem_filter.mpr ⟨he, by simp [hlive, hek, hpk]⟩
        rw [hfnil] at hin
        exact absurd hin (by simp)
      · rw [if_neg hpk]
  · have hmem : ∀ k, k ∈ ((st.kv.filter (live st)).map CacheEntry.key).filter
        (strPrefB ("geo:" ++ p ++ ":")) →
        ∃ e ∈ st.kv, e.key = k ∧ live st e = true ∧
          strPrefB ("geo:" ++ p ++ ":") k = true := by
      intro k hk
      rw [hmklist] at hk
      obtain ⟨e, he, hek⟩ := List.mem_map.mp hk
      have hf := List.mem_filter.mp he
      have hcond := hf.2
      simp only [Bool.and_eq_true] at hcond
      exact ⟨e, hf.1, hek, hcond.1, hek ▸ hcond.2⟩
    have hiempty : (((st.kv.filter (live st)).map CacheEntry.key).filter
        (strPrefB ("geo:" ++ p ++ ":"))).isEmpty = false := by
      simpa [List.isEmpty_iff] using hmk
    have hndm : (((st.kv.filter (live st)).map CacheEntry.key).filter
        (strPrefB ("geo:" ++ p ++ ":"))).Nodup :=
      ((List.filter_sublist _).trans
        ((List.filter_sublist st.kv).map CacheEntry.key)).nodup hnd
    have hdedup : (((st.kv.filter (live st)).map CacheEntry.key).filter
        (strPrefB ("geo:" ++ p ++ ":"))).dedup = _ := hndm.dedup
    have hfke : (((st.kv.filter (live st)).map CacheEntry.key).filter
        (strPrefB ("geo:" ++ p ++ ":"))).filter (keyExists st) = _ :=
      List.filter_eq_self.mpr (by
        intro k hk
        obtain ⟨e, he, hek, hlv, _⟩ := hmem k hk
        simp only [keyExists, Bool.or_eq_true, List.any_eq_true]
        exact Or.inr ⟨e, he, by simp [hek, hlv]⟩)
    have hnpts : (((st.kv.filter (live st)).map CacheEntry.key).filter
        (strPrefB ("geo:" ++ p ++ ":"))).contains "geo:points" = false := by
      by_contra h
      rw [Bool.not_eq_false, List.elem_iff] at h
      obtain ⟨e, _, _, _, hpref⟩ := hmem _ h
      rw [strPrefB_points] at hpref
      exact absurd hpref (by simp)
    have hres : GeoCache.invalidate_by_pref st p =
        ((((st.kv.filter (live st)).map CacheEntry.key).filter
            (strPrefB ("geo:" ++ p ++ ":"))).length,
         { st with kv := st.kv.filter (fun e =>
            !(((st.kv.filter (live st)).map CacheEntry.key).filter
              (strPrefB ("geo:" ++ p ++ ":"))).contains e.key) }) := by
      rw [GeoCache.invalidate_by_pref, GeoCache.inv_body]
      simp only [hkeys, Bind.bind, Except.bind, hiempty, Bool.false_eq_true,
        if_false, redisDel, hre, if_true, hdedup, hfke, hnpts]
    constructor
    · rw [hres]
      rw [hmklist]
      exact List.length_map _ _
    · intro k
      rw [hres]
      by_cases hpk : strPrefB ("geo:" ++ p ++ ":") k = true
      · rw [if_pos hpk]
        apply get_all_expired
        intro e he hek
        have hf := List.mem_filter.mp he
        by_contra hlt
        have hlive : live st e = true := by
          simp [live]
          exact lt_of_not_le hlt
        have hkin : e.key ∈ ((st.kv.filter (live st)).map CacheEntry.key).filter
            (strPrefB ("geo:" ++ p ++ ":")) := by
          rw [hmklist]
          exact List.mem_map.mpr ⟨e,
            List.mem_filter.mpr ⟨hf.1, by simp [hlive, hek, hpk]⟩, rfl⟩
        have hcf := hf.2
        simp only [Bool.not_eq_eq_eq_not, Bool.not_true, List.contains] at hcf
        exact Bool.eq_false_iff.mp hcf (List.elem_iff.mpr hkin)
      · rw [if_neg hpk]
        have hknotin : k ∉ ((st.kv.filter (live st)).map CacheEntry.key).filter
            (strPrefB ("geo:" ++ p ++ ":")) := by
          intro hk
          obtain ⟨_, _, _, _, hpref⟩ := hmem k hk
          exact hpk hpref
        have hfind := find?_filter_keep
          (fun e => e.key == k && live st e)
          (fun e => !(((st.kv.filter (live st)).map CacheEntry.key).filter
            (strPrefB ("geo:" ++ p ++ ":"))).contains e.key)
          (by
            intro e hpf
            simp only [Bool.and_eq_true, beq_iff_eq] at hpf
            simp only [Bool.not_eq_eq_eq_not, Bool.not_true, List.contains]
            rw [hpf.1]
            exact Bool.eq_false_iff.mpr
              (fun h => hknotin (List.elem_iff.mp h))) st.kv
        exact get_eq_of_find_eq _ st k hre hre hfind

/-- C3 counterexample: with `geo:nearby:a`, `geo:nearby:b` and
`geo:within:c` stored and unexpired, `invalidate_by_prefix` called
with the raw key prefix `"geo:nearby:"` — as the claim's scenario
does — returns 0, not 2: the method wraps its argument into the
pattern `geo:geo:nearby::*`, which matches no key, and every entry,
including `geo:nearby:a`, remains retrievable. -/
theorem invalidate_full_prefix_cex :
    GeoCache.invalidate_by_pref stPrefix "geo:nearby:" = (0, stPrefix) ∧
    GeoCache.get stPrefix "geo:nearby:a" = .jstr "A" := by
  constructor <;> rfl

/-- Witness for C3's amended theorem on the spec's scenario: passing
the namespace component `"nearby"` removes exactly the two
`geo:nearby:` entries (count 2), leaves `geo:within:c` retrievable,
and `geo:nearby:a` reads as absent afterwards. -/
theorem invalidate_contract_witness :
    (stPrefix.reachable = true ∧ noMetaStr "nearby" = true ∧
      (stPrefix.kv.map CacheEntry.key).Nodup) ∧
    (GeoCache.invalidate_by_pref stPrefix "nearby").1 = 2 ∧
    GeoCache.get (GeoCache.invalidate_by_pref stPrefix "nearby").2
      "geo:within:c" = .jstr "C" ∧
    GeoCache.get (GeoCache.invalidate_by_pref stPrefix "nearby").2
      "geo:nearby:a" = .jnull := by
  have h := invalidate_contract stPrefix "nearby" rfl rfl (by decide)
  refine ⟨⟨rfl, rfl, by decide⟩, ?_, ?_, ?_⟩
  · rw [h.1]
    rfl
  · rw [h.2 "geo:within:c"]
    rfl
  · rw [h.2 "geo:nearby:a"]
    rfl

theorem find_nearby_empty_aux (st : RState) (lon lat r : ℚ)
    (d : ℚ → ℚ → ℚ → ℚ → ℚ) (wd wh : Bool) :
    (match (do
        let results ← georadiusPy st lon lat r true wd wh d
        formatLoop results : Except PyErr (List (String × ℚ))) with
      | .ok l => l
      | .error _ => []) = [] := by
  cases hre : st.reachable with
  | false => simp [georadiusPy, hre, Bind.bind, Except.bind]
  | true =>
    rw [georadiusPy]
    simp only [hre, if_true]
    cases hm : st.points.filter (fun p => decide (d lon lat p.lon p.lat ≤ r)) with
    | nil => simp [formatLoop, Bind.bind, Except.bind]
    | cons q qs =>
      cases wd <;> cases wh <;>
        simp [formatLoop, pyFloat, Bind.bind, Except.bind]

/-- C4: `find_nearby_points` returns the empty list for every state
and every query — including the claim's scenario, where the backend's
radius search does find A and B (second conjunct) — because the source
passes the raw Redis tokens `"COUNT"` and `"WITHDIST"` positionally
into redis-py's `georadius(name, longitude, latitude, radius, unit,
withcoord, withdist, withhash, …)` signature: the reply records then
carry a coordinate pair (and, with a count, hash and distance fields
too), the `name, distance = result` unpacking or the
`float(distance)` conversion raises, and the `except Exception`
handler turns every reply into `[]`.  This contradicts the function's
own docstring ("List of nearby points with distance"). -/
theorem find_nearby_code_bug :
    (∀ (st : RState) (lon lat r : ℚ) (cnt : Option Nat)
        (d : ℚ → ℚ → ℚ → ℚ → ℚ),
        GeoCache.find_nearby_points st lon lat r cnt d = []) ∧
    georadiusPy stGeo 0 0 200 true false false dLin =
      .ok [[.fname "A", .fcoord 0 0], [.fname "B", .fcoord 0 1]] ∧
    GeoCache.find_nearby_points stGeo 0 0 200 none dLin = [] := by
  have main : ∀ (st : RState) (lon lat r : ℚ) (cnt : Option Nat)
      (d : ℚ → ℚ → ℚ → ℚ → ℚ),
      GeoCache.find_nearby_points st lon lat r cnt d = [] := by
    intro st lon lat r cnt d
    rw [GeoCache.find_nearby_points]
    rcases cnt with _ | n
    · have h := find_nearby_empty_aux st lon lat r d false false
      simpa [GeoCache.fnp_body] using h
    · by_cases hn : n = 0
      · subst hn
        have h := find_nearby_empty_aux st lon lat r d false false
        simpa [GeoCache.fnp_body] using h
      · have h := find_nearby_empty_aux st lon lat r d true true
        simpa [GeoCache.fnp_body, hn] using h
  refine ⟨main, ?_, main stGeo 0 0 200 none dLin⟩
  rw [georadiusPy]
  norm_num [stGeo, dLin, List.filter]

mutual
theorem dumpsCanon_spec : ∀ p : PyVal,
    (canonOK p = true → ∃ s, dumpsCanon p = .ok s) ∧
    (canonOK p = false → dumpsCanon p = .error .typeError)
  | .pynone => ⟨fun _ => ⟨"null", rfl⟩, fun h => by simp [canonOK] at h⟩
  | .pybool b => ⟨fun _ => ⟨cond b "true" "false", rfl⟩,
      fun h => by simp [canonOK] at h⟩
  | .pyint n => ⟨fun _ => ⟨toString n, rfl⟩, fun h => by simp [canonOK] at h⟩
  | .pystr s => ⟨fun _ => ⟨jstring s, rfl⟩, fun h => by simp [canonOK] at h⟩
  | .pylist xs => by
      have hl := dumpsList_spec xs
      constructor
      · intro h
        rw [canonOK] at h
        obtain ⟨l, hok⟩ := hl.1 h
        exact ⟨"[" ++ String.intercalate ", " l ++ "]",
          by simp [dumpsCanon, hok, Bind.bind, Except.bind]⟩
      · intro h
        rw [canonOK] at h
        simp [dumpsCanon, hl.2 h, Bind.bind, Except.bind]
  | .pytuple xs => by
      have hl := dumpsList_spec xs
      constructor
      · intro h
        rw [canonOK] at h
        obtain ⟨l, hok⟩ := hl.1 h
        exact ⟨"[" ++ String.intercalate ", " l ++ "]",
          by simp [dumpsCanon, hok, Bind.bind, Except.bind]⟩
      · intro h
        rw [canonOK] at h
        simp [dumpsCanon, hl.2 h, Bind.bind, Except.bind]
  | .pydict kvs => by
      have hl := dumpsFields_spec kvs
      cases hs : sortableKeys (kvs.map Prod.fst) with
      | false =>
        constructor
        · intro h
          rw [canonOK, hs] at h
          simp at h
        · intro _
          simp [dumpsCanon, hs]
      | true =>
        constructor
        · intro h
          rw [canonOK, hs] at h
          simp only [Bool.true_and] at h
          obtain ⟨l, hok⟩ := hl.1 h
          exact ⟨"\x7b" ++ String.intercalate ", "
              ((insSort fieldLe l).map Prod.snd) ++ "\x7d",
            by simp [dumpsCanon, hs, hok, Bind.bind, Except.bind]⟩
        · intro h
          rw [canonOK, hs] at h
          simp only [Bool.true_and] at h
          simp [dumpsCanon, hs, hl.2 h, Bind.bind, Except.bind]
  | .pyobj t => ⟨fun h => by simp [canonOK] at h, fun _ => rfl⟩
termination_by structural p => p

theorem dumpsList_spec : ∀ l : List PyVal,
    (canonOKList l = true → ∃ s, dumpsList l = .ok s) ∧
    (canonOKList l = false → dumpsList l = .error .typeError)
  | [] => ⟨fun _ => ⟨[], rfl⟩, fun h => by simp [canonOKList] at h⟩
  | x :: t => by
      have hx := dumpsCanon_spec x
      have ht := dumpsList_spec t
      constructor
      · intro h
        rw [canonOKList, Bool.and_eq_true] at h
        obtain ⟨s, hs⟩ := hx.1 h.1
        obtain ⟨l, hlok⟩ := ht.1 h.2
        exact ⟨s :: l, by simp [dumpsList, hs, hlok, Bind.bind, Except.bind]⟩
      · intro h
        rw [canonOKList] at h
        cases hcx : canonOK x with
        | false => simp [dumpsList, hx.2 hcx, Bind.bind, Except.bind]
        | true =>
          rw [hcx, Bool.true_and] at h
          obtain ⟨s, hs⟩ := hx.1 hcx
          simp [dumpsList, hs, ht.2 h, Bind.bind, Except.bind]
termination_by structural l => l

theorem dumpsFields_spec : ∀ l : List (PyKey × PyVal),
    (canonOKKvs l = true → ∃ s, dumpsFields l = .ok s) ∧
    (canonOKKvs l = false → dumpsFields l = .error .typeError)
  | [] => ⟨fun _ => ⟨[], rfl⟩, fun h => by simp [canonOKKvs] at h⟩
  | (k, v) :: t => by
      have hx := dumpsCanon_spec v
      have ht := dumpsFields_spec t
      constructor
      · intro h
        rw [canonOKKvs, Bool.and_eq_true] at h
        obtain ⟨s, hs⟩ := hx.1 h.1
        obtain ⟨l, hlok⟩ := ht.1 h.2
        exact ⟨(k, jstring k.render ++ ": " ++ s) :: l,
          by simp [dumpsFields, hs, hlok, Bind.bind, Except.bind]⟩
      · intro h
        rw [canonOKKvs] at h
        cases hcx : canonOK v with
        | false => simp [dumpsFields, hx.2 hcx, Bind.bind, Except.bind]
        | true =>
          rw [hcx, Bool.true_and] at h
          obtain ⟨s, hs⟩ := hx.1 hcx
          simp [dumpsFields, hs, ht.2 h, Bind.bind, Except.bind]
termination_by structural l => l
end

/-- C9: key derivation is a pure function of (namespace, params)
alone — in the model it takes no state and performs no effects — and
for a parameter set containing a non-serializable value (or mapping
keys Python cannot sort) it fails synchronously with the serializer's
`TypeError`, which `generate_key`, `get_cached_query_result` and
`cache_query_result` all propagate rather than swallow; for
serializable inputs it succeeds, with no other failure mode. -/
theorem generate_key_error_contract :
    (∀ (hf : String → String) (ns : String) (p : PyVal) (st : RState)
        (res : PyVal) (ttl : Option ℚ), canonOK p = false →
        GeoCache.generate_key hf ns p = .error .typeError ∧
        GeoCache.get_cached_query_result hf st ns p = .error .typeError ∧
        GeoCache.cache_query_result hf st ns p res ttl = .error .typeError) ∧
    (∀ (hf : String → String) (ns : String) (p : PyVal), canonOK p = true →
        ∃ s, dumpsCanon p = .ok s ∧
          GeoCache.generate_key hf ns p = .ok ("geo:" ++ ns ++ ":" ++ hf s)) := by
  constructor
  · intro hf ns p st res ttl h
    have hd := (dumpsCanon_spec p).2 h
    have hg : GeoCache.generate_key hf ns p = .error .typeError := by
      simp [GeoCache.generate_key, hd, Bind.bind, Except.bind]
    exact ⟨hg, by simp [GeoCache.get_cached_query_result, hg, Bind.bind,
        Except.bind],
      by simp [GeoCache.cache_query_result, hg, Bind.bind, Except.bind]⟩
  · intro hf ns p h
    obtain ⟨s, hs⟩ := (dumpsCanon_spec p).1 h
    exact ⟨s, hs, by simp [GeoCache.generate_key, hs, Bind.bind, Except.bind]⟩

/-- Witness for C9: a parameter set holding a non-serializable object
fails everywhere it is used, and the county parameter set derives a
key. -/
theorem generate_key_error_contract_witness :
    (canonOK (.pydict [(.kstr "shape", .pyobj "Polygon")]) = false ∧
     GeoCache.generate_key id "nearby"
       (.pydict [(.kstr "shape", .pyobj "Polygon")]) = .error .typeError ∧
     GeoCache.get_cached_query_result id stUp "nearby"
       (.pydict [(.kstr "shape", .pyobj "Polygon")]) = .error .typeError) ∧
    (canonOK paramsCounty = true ∧
     ∃ s, dumpsCanon paramsCounty = .ok s ∧
       GeoCache.generate_key id "locations" paramsCounty =
         .ok ("geo:" ++ "locations" ++ ":" ++ id s)) :=
  ⟨⟨rfl,
    ((generate_key_error_contract.1 id "nearby"
      (.pydict [(.kstr "shape", .pyobj "Polygon")]) stUp .pynone none) rfl).1,
    ((generate_key_error_contract.1 id "nearby"
      (.pydict [(.kstr "shape", .pyobj "Polygon")]) stUp .pynone none) rfl).2.1⟩,
   ⟨rfl, generate_key_error_contract.2 id "locations" paramsCounty rfl⟩⟩

theorem lookupKey_none_iff {β : Type} (k : PyKey) :
    ∀ l : List (PyKey × β), lookupKey k l = none ↔ k ∉ l.map Prod.fst := by
  intro l
  induction l with
  | nil => simp [lookupKey]
  | cons a t ih =>
    obtain ⟨k', v⟩ := a
    by_cases hk : k' = k
    · subst hk
      simp [lookupKey]
    · simp [lookupKey, hk, ih, Ne.symm hk]

theorem lookupKey_mem {β : Type} (k : PyKey) :
    ∀ (l : List (PyKey × β)) (v : β), lookupKey k l = some v → (k, v) ∈ l := by
  intro l
  induction l with
  | nil => intro v h; simp [lookupKey] at h
  | cons a t ih =>
    intro v h
    obtain ⟨k', w⟩ := a
    by_cases hk : k' = k
    · subst hk
      simp [lookupKey] at h
      simp [h]
    · simp only [lookupKey, hk, if_false] at h
      exact List.mem_cons_of_mem _ (ih v h)

theorem lookupKey_of_nodup_mem {β : Type} (k : PyKey) :
    ∀ (l : List (PyKey × β)) (v : β), (l.map Prod.fst).Nodup →
      (k, v) ∈ l → lookupKey k l = some v := by
  intro l
  induction l with
  | nil => intro v _ h; simp at h
  | cons a t ih =>
    intro v hnd hm
    obtain ⟨k', w⟩ := a
    rw [List.map_cons, List.nodup_cons] at hnd
    rcases List.mem_cons.mp hm with heq | ht
    · obtain ⟨h1, h2⟩ := Prod.mk.injEq .. ▸ (by exact congrArg id heq : (k, v) = (k', w))
      subst h1
      subst h2
      simp [lookupKey]
    · have hk : ¬ k' = k := by
        intro h
        subst h
        exact hnd.1 (List.mem_map.mpr ⟨(k', v), ht, rfl⟩)
      simp only [lookupKey, hk, if_false]
      exact ih v hnd.2 ht

theorem keyLeB_total (a b : PyKey) : keyLeB a b = true ∨ keyLeB b a = true := by
  rw [keyLeB, keyLeB]
  cases hab : (a.isStr && b.isStr) with
  | true =>
    have hba : (b.isStr && a.isStr) = true :=
      (Bool.and_comm b.isStr a.isStr).trans hab
    rcases le_total a.strVal.toList b.strVal.toList with h | h
    · left
      simp only [hab, if_pos, decide_eq_true_eq]
      exact h
    · right
      simp only [hba, if_pos, decide_eq_true_eq]
      exact h
  | false =>
    have hba : (b.isStr && a.isStr) = false :=
      (Bool.and_comm b.isStr a.isStr).trans hab
    rcases le_total a.numVal b.numVal with h | h
    · left
      simp [hab, h]
    · right
      simp [hba, h]

theorem keyLeB_antisymm_str (a b : PyKey) (ha : a.isStr = true)
    (hb : b.isStr = true) (h1 : keyLeB a b = true) (h2 : keyLeB b a = true) :
    a = b := by
  cases a with
  | kstr s =>
    cases b with
    | kstr t =>
      rw [keyLeB] at h1 h2
      simp only [PyKey.isStr, Bool.and_self, if_pos, decide_eq_true_eq,
        PyKey.strVal] at h1 h2
      have hll : s.toList = t.toList := le_antisymm h1 h2
      have hst : s = t := by
        rw [← String.asString_toList s, ← String.asString_toList t, hll]
      simp [hst]
    | kint n => simp [PyKey.isStr] at hb
    | kbool c => simp [PyKey.isStr] at hb
    | knone => simp [PyKey.isStr] at hb
  | kint n => simp [PyKey.isStr] at ha
  | kbool c => simp [PyKey.isStr] at ha
  | knone => simp [PyKey.isStr] at ha

theorem keyLeB_trans_str (a b c : PyKey) (ha : a.isStr = true)
    (hb : b.isStr = true) (hc : c.isStr = true) (h1 : keyLeB a b = true)
    (h2 : keyLeB b c = true) : keyLeB a c = true := by
  rw [keyLeB] at h1 h2 ⊢
  rw [ha, hb] at h1
  rw [hb, hc] at h2
  rw [ha, hc]
  simp only [Bool.and_self, if_pos, decide_eq_true_eq] at h1 h2 ⊢
  exact le_trans h1 h2

theorem insertS_pairwise (le : α → α → Bool) (a : α) :
    ∀ l : List α,
      (∀ x ∈ a :: l, ∀ y ∈ a :: l, le x y = true ∨ le y x = true) →
      (∀ x ∈ a :: l, ∀ y ∈ a :: l, ∀ z ∈ a :: l,
        le x y = true → le y z = true → le x z = true) →
      l.Pairwise (fun x y => le x y = true) →
      (insertS le a l).Pairwise (fun x y => le x y = true) := by
  intro l
  induction l with
  | nil => intro _ _ _; simp [insertS]
  | cons b t ih =>
    intro htot htrans hp
    rw [List.pairwise_cons] at hp
    by_cases hab : le a b = true
    · rw [insertS, if_pos hab]
      rw [List.pairwise_cons]
      refine ⟨?_, List.pairwise_cons.mpr hp⟩
      intro x hx
      rcases List.mem_cons.mp hx with heq | hxt
      · subst heq
        exact hab
      · exact htrans a (by simp) b (by simp) x (by simp [hxt]) hab (hp.1 x hxt)
    · rw [insertS, if_neg hab]
      rw [List.pairwise_cons]
      constructor
      · intro x hx
        rcases List.mem_cons.mp ((insertS_perm le a t).mem_iff.mp hx) with
          heq | hxt
        · rcases htot a (by simp) b (by simp) with h | h
          · exact absurd h hab
          · rw [heq]
            exact h
        · exact hp.1 x hxt
      · refine ih ?_ ?_ hp.2
        · intro x hx y hy
          have hs : ∀ z, z ∈ a :: t → z ∈ a :: b :: t := by
            intro z hz
            rcases List.mem_cons.mp hz with rfl | hz
            · simp
            · simp [hz]
          exact htot x (hs x hx) y (hs y hy)
        · intro x hx y hy z hz
          have hs : ∀ w, w ∈ a :: t → w ∈ a :: b :: t := by
            intro w hw
            rcases List.mem_cons.mp hw with rfl | hw
            · simp
            · simp [hw]
          exact htrans x (hs x hx) y (hs y hy) z (hs z hz)

theorem insSort_pairwise (le : α → α → Bool) :
    ∀ l : List α,
      (∀ x ∈ l, ∀ y ∈ l, le x y = true ∨ le y x = true) →
      (∀ x ∈ l, ∀ y ∈ l, ∀ z ∈ l,
        le x y = true → le y z = true → le x z = true) →
      (insSort le l).Pairwise (fun x y => le x y = true) := by
  intro l
  induction l with
  | nil => intro _ _; simp [insSort]
  | cons a t ih =>
    intro htot htrans
    rw [insSort]
    have hsub : ∀ z, z ∈ a :: insSort le t → z ∈ a :: t := by
      intro z hz
      rcases List.mem_cons.mp hz with rfl | hz
      · simp
      · simp [(mem_insSort le).mp hz]
    refine insertS_pairwise le a (insSort le t) ?_ ?_ ?_
    · intro x hx y hy
      exact htot x (hsub x hx) y (hsub y hy)
    · intro x hx y hy z hz
      exact htrans x (hsub x hx) y (hsub y hy) z (hsub z hz)
    · refine ih ?_ ?_
      · intro x hx y hy
        exact htot x (by simp [hx]) y (by simp [hy])
      · intro x hx y hy z hz
        exact htrans x (by simp [hx]) y (by simp [hy]) z (by simp [hz])

theorem lookupKey_insertS {β : Type} (le : (PyKey × β) → (PyKey × β) → Bool)
    (a : PyKey × β) :
    ∀ (l : List (PyKey × β)), a.1 ∉ l.map Prod.fst → ∀ k,
      lookupKey k (insertS le a l) =
        if a.1 = k then some a.2 else lookupKey k l := by
  intro l
  induction l with
  | nil =>
    intro _ k
    obtain ⟨ka, va⟩ := a
    simp [insertS, lookupKey]
  | cons b t ih =>
    intro hnot k
    simp only [List.map_cons, List.mem_cons, not_or] at hnot
    obtain ⟨ka, va⟩ := a
    obtain ⟨kb, vb⟩ := b
    by_cases hab : le (ka, va) (kb, vb) = true
    · rw [insertS, if_pos hab]
      rw [lookupKey]
    · rw [insertS, if_neg hab]
      rw [lookupKey]
      by_cases hbk : kb = k
      · subst hbk
        have hne : ¬(ka = kb) := hnot.1
        rw [if_pos rfl, if_neg (by simpa using hne), lookupKey, if_pos rfl]
      · rw [if_neg hbk, ih hnot.2 k, lookupKey, if_neg hbk]

theorem lookupKey_insSort {β : Type} (le : (PyKey × β) → (PyKey × β) → Bool) :
    ∀ (l : List (PyKey × β)), (l.map Prod.fst).Nodup → ∀ k,
      lookupKey k (insSort le l) = lookupKey k l := by
  intro l
  induction l with
  | nil => intro _ k; rfl
  | cons a t ih =>
    intro hnd k
    rw [List.map_cons, List.nodup_cons] at hnd
    have hnot : a.1 ∉ (insSort le t).map Prod.fst := by
      intro h
      exact hnd.1 (((insSort_perm le t).map Prod.fst).mem_iff.mp h)
    rw [insSort, lookupKey_insertS le a _ hnot k, ih hnd.2 k]
    obtain ⟨ka, va⟩ := a
    rw [lookupKey]

theorem sorted_assoc_ext :
    ∀ (l₁ l₂ : List (PyKey × String)),
      (∀ x ∈ l₁, x.1.isStr = true) → (∀ x ∈ l₂, x.1.isStr = true) →
      l₁.Pairwise (fun x y => fieldLe x y = true) →
      l₂.Pairwise (fun x y => fieldLe x y = true) →
      (l₁.map Prod.fst).Nodup → (l₂.map Prod.fst).Nodup →
      (∀ k, lookupKey k l₁ = lookupKey k l₂) → l₁ = l₂ := by
  intro l₁
  induction l₁ with
  | nil =>
    intro l₂ _ _ _ _ _ _ hlk
    cases l₂ with
    | nil => rfl
    | cons b t₂ =>
      obtain ⟨kb, vb⟩ := b
      have h := hlk kb
      simp [lookupKey] at h
  | cons a t₁ ih =>
    intro l₂ hs₁ hs₂ hp₁ hp₂ hnd₁ hnd₂ hlk
    obtain ⟨ka, va⟩ := a
    cases l₂ with
    | nil =>
      have h := hlk ka
      simp [lookupKey] at h
    | cons b t₂ =>
      obtain ⟨kb, vb⟩ := b
      rw [List.pairwise_cons] at hp₁ hp₂
      rw [List.map_cons, List.nodup_cons] at hnd₁ hnd₂
      have hkey : ka = kb := by
        by_contra hne
        have h1 : lookupKey ka ((kb, vb) :: t₂) = some va := by
          rw [← hlk ka]
          simp [lookupKey]
        have h2 : lookupKey kb ((ka, va) :: t₁) = some vb := by
          rw [hlk kb]
          simp [lookupKey]
        rw [lookupKey, if_neg (fun h => hne h.symm)] at h1
        rw [lookupKey, if_neg hne] at h2
        have hm1 := lookupKey_mem ka t₂ va h1
        have hm2 := lookupKey_mem kb t₁ vb h2
        have hba : keyLeB kb ka = true := hp₂.1 (ka, va) hm1
        have hab : keyLeB ka kb = true := hp₁.1 (kb, vb) hm2
        exact hne (keyLeB_antisymm_str ka kb (hs₁ (ka, va) (by simp))
          (hs₂ (kb, vb) (by simp)) hab hba)
      subst hkey
      have hval : va = vb := by
        have h1 := hlk ka
        simp [lookupKey] at h1
        exact h1
      have htails : t₁ = t₂ := by
        refine ih t₂ (fun x hx => hs₁ x (by simp [hx]))
          (fun x hx => hs₂ x (by simp [hx])) hp₁.2 hp₂.2 hnd₁.2 hnd₂.2 ?_
        intro k
        by_cases hk : k = ka
        · subst hk
          have hn1 : lookupKey k t₁ = none :=
            (lookupKey_none_iff k t₁).mpr hnd₁.1
          have hn2 : lookupKey k t₂ = none :=
            (lookupKey_none_iff k t₂).mpr hnd₂.1
          rw [hn1, hn2]
        · have h := hlk k
          rw [lookupKey, if_neg (fun hh => hk hh.symm), lookupKey,
            if_neg (fun hh => hk hh.symm)] at h
          exact h
      rw [hval, htails]

theorem nodupB_iff : ∀ l : List String, nodupB l = true ↔ l.Nodup := by
  intro l
  induction l with
  | nil => simp [nodupB]
  | cons x t ih => rw [nodupB_cons, List.nodup_cons, ih]

theorem ParamWFKvs_mem : ∀ (l : List (PyKey × PyVal)),
    ParamWFKvs l = true → ∀ kv ∈ l, ParamWF kv.2 = true := by
  intro l
  induction l with
  | nil => intro _ kv h; simp at h
  | cons a t ih =>
    intro h kv hm
    obtain ⟨k, v⟩ := a
    rw [ParamWFKvs, Bool.and_eq_true] at h
    rcases List.mem_cons.mp hm with heq | ht
    · rw [heq]
      exact h.1
    · exact ih h.2 kv ht

theorem canonOKKvs_iff : ∀ l : List (PyKey × PyVal),
    canonOKKvs l = true ↔ ∀ kv ∈ l, canonOK kv.2 = true := by
  intro l
  induction l with
  | nil => simp [canonOKKvs]
  | cons a t ih =>
    obtain ⟨k, v⟩ := a
    rw [canonOKKvs, Bool.and_eq_true, ih]
    constructor
    · intro h kv hm
      rcases List.mem_cons.mp hm with heq | ht
      · rw [heq]
        exact h.1
      · exact h.2 kv ht
    · intro h
      exact ⟨h (k, v) (by simp), fun kv hm => h kv (by simp [hm])⟩

theorem structEqDict_mp : ∀ (l₁ l₂ : List (PyKey × PyVal)),
    structEqDict l₁ l₂ = true → ∀ kv ∈ l₁,
      ∃ w, lookupKey kv.1 l₂ = some w ∧ structEq kv.2 w = true := by
  intro l₁
  induction l₁ with
  | nil => intro l₂ _ kv h; simp at h
  | cons a t ih =>
    intro l₂ h kv hm
    obtain ⟨k, v⟩ := a
    rw [structEqDict, Bool.and_eq_true] at h
    rcases List.mem_cons.mp hm with heq | ht
    · subst heq
      cases hl : lookupKey k l₂ with
      | none => rw [hl] at h; simp at h
      | some w =>
        rw [hl] at h
        exact ⟨w, rfl, h.1⟩
    · exact ih l₂ h.2 kv ht

theorem structEq_dict_lookup (l₁ l₂ : List (PyKey × PyVal))
    (h : structEq (.pydict l₁) (.pydict l₂) = true) :
    (∀ kv ∈ l₁, ∃ w, lookupKey kv.1 l₂ = some w ∧ structEq kv.2 w = true) ∧
    (∀ kv ∈ l₂, (lookupKey kv.1 l₁).isSome = true) := by
  rw [structEq, Bool.and_eq_true] at h
  exact ⟨structEqDict_mp l₁ l₂ h.1, fun kv hm => by
    have := List.all_eq_true.mp h.2 kv hm
    simpa using this⟩

theorem dumpsFields_ok :
    ∀ (l : List (PyKey × PyVal)) (f : List (PyKey × String)),
      dumpsFields l = .ok f →
      f.map Prod.fst = l.map Prod.fst ∧
      (∀ k, lookupKey k l = none → lookupKey k f = none) ∧
      (∀ k v, lookupKey k l = some v →
        ∃ s, dumpsCanon v = .ok s ∧
          lookupKey k f = some (jstring k.render ++ ": " ++ s)) := by
  intro l
  induction l with
  | nil =>
    intro f h
    rw [dumpsFields] at h
    injection h with h
    subst h
    refine ⟨rfl, fun k _ => rfl, fun k v hv => ?_⟩
    simp [lookupKey] at hv
  | cons a t ih =>
    intro f h
    obtain ⟨k0, v0⟩ := a
    rw [dumpsFields] at h
    cases hs : dumpsCanon v0 with
    | error e => rw [hs] at h; simp [Bind.bind, Except.bind] at h
    | ok s =>
      rw [hs] at h
      cases ht : dumpsFields t with
      | error e => rw [ht] at h; simp [Bind.bind, Except.bind] at h
      | ok ts =>
        rw [ht] at h
        simp only [Bind.bind, Except.bind, Except.ok.injEq] at h
        subst h
        obtain ⟨hkeys, hnone, hsome⟩ := ih ts ht
        refine ⟨by simp [hkeys], ?_, ?_⟩
        · intro k hk
          rw [lookupKey] at hk ⊢
          by_cases hkk : k0 = k
          · rw [if_pos hkk] at hk
            exact absurd hk (by simp)
          · rw [if_neg hkk] at hk ⊢
            exact hnone k hk
        · intro k v hk
          rw [lookupKey] at hk ⊢
          by_cases hkk : k0 = k
          · rw [if_pos hkk] at hk ⊢
            injection hk with hk
            subst hk
            subst hkk
            exact ⟨s, hs, rfl⟩
          · rw [if_neg hkk] at hk ⊢
            exact hsome k v hk

theorem dumpsList_congr :
    ∀ (xs ys : List PyVal),
      (∀ x ∈ xs, ∀ q, ParamWF x = true → ParamWF q = true →
        structEq x q = true → dumpsCanon x = dumpsCanon q) →
      ParamWFList xs = true → ParamWFList ys = true →
      structEqList xs ys = true → dumpsList xs = dumpsList ys := by
  intro xs
  induction xs with
  | nil =>
    intro ys _ _ _ heq
    cases ys with
    | nil => rfl
    | cons y t => simp [structEqList] at heq
  | cons x t ih =>
    intro ys hIH hw₁ hw₂ heq
    cases ys with
    | nil => simp [structEqList] at heq
    | cons y u =>
      rw [structEqList, Bool.and_eq_true] at heq
      rw [ParamWFList, Bool.and_eq_true] at hw₁ hw₂
      have hx := hIH x (by simp) y hw₁.1 hw₂.1 heq.1
      have ht := ih u (fun z hz => hIH z (by simp [hz])) hw₁.2 hw₂.2 heq.2
      rw [dumpsList, dumpsList, hx, ht]

theorem dumpsDict_congr :
    ∀ (l₁ l₂ : List (PyKey × PyVal)),
      (∀ kv ∈ l₁, ∀ q, ParamWF kv.2 = true → ParamWF q = true →
        structEq kv.2 q = true → dumpsCanon kv.2 = dumpsCanon q) →
      ParamWF (.pydict l₁) = true → ParamWF (.pydict l₂) = true →
      structEq (.pydict l₁) (.pydict l₂) = true →
      dumpsCanon (.pydict l₁) = dumpsCanon (.pydict l₂) := by
  intro l₁ l₂ hIH hw₁ hw₂ heq
  rw [ParamWF, Bool.and_eq_true, Bool.and_eq_true] at hw₁ hw₂
  have hstr₁ : ∀ k ∈ l₁.map Prod.fst, PyKey.isStr k = true :=
    List.all_eq_true.mp hw₁.1.1
  have hstr₂ : ∀ k ∈ l₂.map Prod.fst, PyKey.isStr k = true :=
    List.all_eq_true.mp hw₂.1.1
  have hnd₁ : (l₁.map Prod.fst).Nodup :=
    ((nodupB_iff _).mp hw₁.1.2).of_map PyKey.strVal
  have hnd₂ : (l₂.map Prod.fst).Nodup :=
    ((nodupB_iff _).mp hw₂.1.2).of_map PyKey.strVal
  have hvals₁ := ParamWFKvs_mem l₁ hw₁.2
  have hvals₂ := ParamWFKvs_mem l₂ hw₂.2
  obtain ⟨hfwd, hbwd⟩ := structEq_dict_lookup l₁ l₂ heq
  have hso₁ : sortableKeys (l₁.map Prod.fst) = true := by
    simp [sortableKeys, hw₁.1.1]
  have hso₂ : sortableKeys (l₂.map Prod.fst) = true := by
    simp [sortableKeys, hw₂.1.1]
  have hnone : ∀ k, lookupKey k l₁ = none → lookupKey k l₂ = none := by
    intro k h1
    cases h2 : lookupKey k l₂ with
    | none => rfl
    | some w =>
      have hm := lookupKey_mem k l₂ w h2
      have := hbwd (k, w) hm
      rw [h1] at this
      simp at this
  have hlkdumps : ∀ k v w, lookupKey k l₁ = some v → lookupKey k l₂ = some w →
      structEq v w = true ∧ dumpsCanon v = dumpsCanon w := by
    intro k v w h1 h2
    have hm1 := lookupKey_mem k l₁ v h1
    obtain ⟨w', hw', hse⟩ := hfwd (k, v) hm1
    rw [h2] at hw'
    injection hw' with hw'
    subst hw'
    have hm2 := lookupKey_mem k l₂ w h2
    exact ⟨hse, hIH (k, v) hm1 w (hvals₁ (k, v) hm1) (hvals₂ (k, w) hm2) hse⟩
  have hck : canonOKKvs l₁ = canonOKKvs l₂ := by
    have hiff : canonOKKvs l₁ = true ↔ canonOKKvs l₂ = true := by
      rw [canonOKKvs_iff, canonOKKvs_iff]
      constructor
      · intro h kv hm
        obtain ⟨k, w⟩ := kv
        have hiss := hbwd (k, w) hm
        cases h1 : lookupKey k l₁ with
        | none => rw [h1] at hiss; simp at hiss
        | some v =>
          have h2 : lookupKey k l₂ = some w :=
            lookupKey_of_nodup_mem k l₂ w hnd₂ hm
          have hde := (hlkdumps k v w h1 h2).2
          have hcv := h (k, v) (lookupKey_mem k l₁ v h1)
          obtain ⟨s, hs⟩ := (dumpsCanon_spec v).1 hcv
          cases hcw : canonOK w with
          | true => rfl
          | false =>
            have := (dumpsCanon_spec w).2 hcw
            rw [← hde, hs] at this
            exact absurd this (by simp)
      · intro h kv hm
        obtain ⟨k, v⟩ := kv
        have h1 : lookupKey k l₁ = some v :=
          lookupKey_of_nodup_mem k l₁ v hnd₁ hm
        obtain ⟨w, h2, _⟩ := hfwd (k, v) hm
        have hde := (hlkdumps k v w h1 h2).2
        have hcw := h (k, w) (lookupKey_mem k l₂ w h2)
        obtain ⟨s, hs⟩ := (dumpsCanon_spec w).1 hcw
        cases hcv : canonOK v with
        | true => rfl
        | false =>
          have := (dumpsCanon_spec v).2 hcv
          rw [hde, hs] at this
          exact absurd this (by simp)
    cases hc1 : canonOKKvs l₁ with
    | true => exact (hiff.mp hc1).symm
    | false =>
      cases hc2 : canonOKKvs l₂ with
      | true => exact absurd (hiff.mpr hc2) (by simp [hc1])
      | false => rfl
  cases hc1 : canonOKKvs l₁ with
  | false =>
    have hf1 := (dumpsFields_spec l₁).2 hc1
    have hf2 := (dumpsFields_spec l₂).2 (hck ▸ hc1)
    rw [dumpsCanon, dumpsCanon, if_pos hso₁, if_pos hso₂]
    simp [hf1, hf2, Bind.bind, Except.bind]
  | true =>
    obtain ⟨f₁, hf1⟩ := (dumpsFields_spec l₁).1 hc1
    obtain ⟨f₂, hf2⟩ := (dumpsFields_spec l₂).1 (hck ▸ hc1)
    obtain ⟨hk1, hn1, hs1⟩ := dumpsFields_ok l₁ f₁ hf1
    obtain ⟨hk2, hn2, hs2⟩ := dumpsFields_ok l₂ f₂ hf2
    have hfnd₁ : (f₁.map Prod.fst).Nodup := by rw [hk1]; exact hnd₁
    have hfnd₂ : (f₂.map Prod.fst).Nodup := by rw [hk2]; exact hnd₂
    have hfstr₁ : ∀ x ∈ f₁, x.1.isStr = true := by
      intro x hx
      exact hstr₁ x.1 (hk1 ▸ List.mem_map.mpr ⟨x, hx, rfl⟩)
    have hfstr₂ : ∀ x ∈ f₂, x.1.isStr = true := by
      intro x hx
      exact hstr₂ x.1 (hk2 ▸ List.mem_map.mpr ⟨x, hx, rfl⟩)
    have hflk : ∀ k, lookupKey k f₁ = lookupKey k f₂ := by
      intro k
      cases h1 : lookupKey k l₁ with
      | none =>
        rw [hn1 k h1, hn2 k (hnone k h1)]
      | some v =>
        obtain ⟨w, h2, _⟩ := hfwd (k, v) (lookupKey_mem k l₁ v h1)
        have hde := (hlkdumps k v w h1 h2).2
        obtain ⟨s, hsv, hlf1⟩ := hs1 k v h1
        obtain ⟨s', hsw, hlf2⟩ := hs2 k w h2
        rw [hde, hsw] at hsv
        injection hsv with hss
        rw [hlf1, hlf2, hss]
    have hsorted : insSort fieldLe f₁ = insSort fieldLe f₂ := by
      refine sorted_assoc_ext (insSort fieldLe f₁) (insSort fieldLe f₂)
        (fun x hx => hfstr₁ x ((mem_insSort fieldLe).mp hx))
        (fun x hx => hfstr₂ x ((mem_insSort fieldLe).mp hx))
        (insSort_pairwise fieldLe f₁
          (fun x _ y _ => keyLeB_total x.1 y.1)
          (fun x hx y hy z hz h1 h2 => keyLeB_trans_str x.1 y.1 z.1
            (hfstr₁ x hx) (hfstr₁ y hy) (hfstr₁ z hz) h1 h2))
        (insSort_pairwise fieldLe f₂
          (fun x _ y _ => keyLeB_total x.1 y.1)
          (fun x hx y hy z hz h1 h2 => keyLeB_trans_str x.1 y.1 z.1
            (hfstr₂ x hx) (hfstr₂ y hy) (hfstr₂ z hz) h1 h2))
        (((insSort_perm fieldLe f₁).map Prod.fst).nodup_iff.mpr hfnd₁)
        (((insSort_perm fieldLe f₂).map Prod.fst).nodup_iff.mpr hfnd₂)
        ?_
      intro k
      rw [lookupKey_insSort fieldLe f₁ hfnd₁ k,
        lookupKey_insSort fieldLe f₂ hfnd₂ k]
      exact hflk k
    rw [dumpsCanon, dumpsCanon, if_pos hso₁, if_pos hso₂]
    simp [hf1, hf2, hsorted, Bind.bind, Except.bind]

theorem dumpsEq_fuel : ∀ (n : Nat) (p q : PyVal), sizeOf p ≤ n →
    ParamWF p = true → ParamWF q = true → structEq p q = true →
    dumpsCanon p = dumpsCanon q := by
  intro n
  induction n with
  | zero =>
    intro p q hs _ _ _
    exact absurd hs (by cases p <;> simp_arith)
  | succ n ihn =>
    intro p q hs hwp hwq heq
    cases p with
    | pynone =>
      cases q <;> try (exfalso; revert heq; simp [structEq]; done)
      case pynone => rfl
    | pybool a =>
      cases q <;> try (exfalso; revert heq; simp [structEq]; done)
      case pybool b =>
        have hab : a = b := by simpa [structEq] using heq
        rw [hab]
    | pyint a =>
      cases q <;> try (exfalso; revert heq; simp [structEq]; done)
      case pyint b =>
        have hab : a = b := by simpa [structEq] using heq
        rw [hab]
    | pystr a =>
      cases q <;> try (exfalso; revert heq; simp [structEq]; done)
      case pystr b =>
        have hab : a = b := by simpa [structEq] using heq
        rw [hab]
    | pyobj a =>
      cases q <;> try (exfalso; revert heq; simp [structEq]; done)
      case pyobj b =>
        have hab : a = b := by simpa [structEq] using heq
        rw [hab]
    | pylist xs =>
      cases q <;> try (exfalso; revert heq; simp [structEq]; done)
      case pylist ys =>
        simp only [structEq] at heq
        simp only [ParamWF] at hwp hwq
        have hb : ∀ x ∈ xs, ∀ q', ParamWF x = true → ParamWF q' = true →
            structEq x q' = true → dumpsCanon x = dumpsCanon q' := by
          intro x hx q' h1 h2 h3
          have hlt := List.sizeOf_lt_of_mem hx
          have hxn : sizeOf x ≤ n := by
            simp only [PyVal.pylist.sizeOf_spec] at hs
            omega
          exact ihn x q' hxn h1 h2 h3
        simp only [dumpsCanon]
        rw [dumpsList_congr xs ys hb hwp hwq heq]
    | pytuple xs =>
      cases q <;> try (exfalso; revert heq; simp [structEq]; done)
      case pytuple ys =>
        simp only [structEq] at heq
        simp only [ParamWF] at hwp hwq
        have hb : ∀ x ∈ xs, ∀ q', ParamWF x = true → ParamWF q' = true →
            structEq x q' = true → dumpsCanon x = dumpsCanon q' := by
          intro x hx q' h1 h2 h3
          have hlt := List.sizeOf_lt_of_mem hx
          have hxn : sizeOf x ≤ n := by
            simp only [PyVal.pytuple.sizeOf_spec] at hs
            omega
          exact ihn x q' hxn h1 h2 h3
        simp only [dumpsCanon]
        rw [dumpsList_congr xs ys hb hwp hwq heq]
    | pydict l₁ =>
      cases q <;> try (exfalso; revert heq; simp [structEq]; done)
      case pydict l₂ =>
        have hb : ∀ kv ∈ l₁, ∀ q', ParamWF kv.2 = true → ParamWF q' = true →
            structEq kv.2 q' = true → dumpsCanon kv.2 = dumpsCanon q' := by
          intro kv hkv q' h1 h2 h3
          obtain ⟨k, v⟩ := kv
          have hlt := List.sizeOf_lt_of_mem hkv
          have hvn : sizeOf v ≤ n := by
            simp only [PyVal.pydict.sizeOf_spec] at hs
            simp only [Prod.mk.sizeOf_spec] at hlt
            omega
          exact ihn v q' hvn h1 h2 h3
        exact dumpsDict_congr l₁ l₂ hb hwp hwq heq

/-- C1: two structurally equal parameter sets — same string keys and
same values at every nesting level, regardless of mapping-key
insertion order, with list order significant — derive the identical
cache key, for every namespace and every digest function:
`json.dumps(..., sort_keys=True)` sorts the keys of every mapping
recursively, so the canonical serialization depends only on the
structural content. -/
theorem generate_key_stability :
    ∀ (hf : String → String) (ns : String) (p q : PyVal),
      ParamWF p = true → ParamWF q = true → structEq p q = true →
      GeoCache.generate_key hf ns p = GeoCache.generate_key hf ns q := by
  intro hf ns p q hwp hwq heq
  rw [GeoCache.generate_key, GeoCache.generate_key,
    dumpsEq_fuel (sizeOf p) p q le_rfl hwp hwq heq]

/-- Witness for C1: the mapping `{a: 1, b: [2, {c: null}]}` written in
two different key orders (at both nesting levels) derives the same
key. -/
theorem generate_key_stability_witness :
    (ParamWF (.pydict [(.kstr "a", .pyint 1),
        (.kstr "b", .pylist [.pyint 2, .pydict [(.kstr "c", .pynone),
          (.kstr "d", .pybool true)]])]) = true ∧
     ParamWF (.pydict [(.kstr "b", .pylist [.pyint 2, .pydict
          [(.kstr "d", .pybool true), (.kstr "c", .pynone)]]),
        (.kstr "a", .pyint 1)]) = true ∧
     structEq (.pydict [(.kstr "a", .pyint 1),
        (.kstr "b", .pylist [.pyint 2, .pydict [(.kstr "c", .pynone),
          (.kstr "d", .pybool true)]])])
       (.pydict [(.kstr "b", .pylist [.pyint 2, .pydict
          [(.kstr "d", .pybool true), (.kstr "c", .pynone)]]),
        (.kstr "a", .pyint 1)]) = true) ∧
    GeoCache.generate_key id "nearby"
        (.pydict [(.kstr "a", .pyint 1),
          (.kstr "b", .pylist [.pyint 2, .pydict [(.kstr "c", .pynone),
            (.kstr "d", .pybool true)]])]) =
      GeoCache.generate_key id "nearby"
        (.pydict [(.kstr "b", .pylist [.pyint 2, .pydict
            [(.kstr "d", .pybool true), (.kstr "c", .pynone)]]),
          (.kstr "a", .pyint 1)]) :=
  ⟨⟨rfl, rfl, rfl⟩,
   generate_key_stability id "nearby" _ _ rfl rfl rfl⟩
